import Mathlib

set_option maxHeartbeats 1000000

/-! Shallow embedding of `src/cle/backends/macho/binding.py`, the Mach-O
dynamic binding opcode interpreter.  Byte blobs are `List Nat` (Python
`bytes`), symbol names are lists of byte values, and machine integers are
`Nat`/`Int` with the source's explicit wraparound arithmetic. -/

/-- Exceptions that can escape the interpreter: `CLEInvalidBinaryError`, a
Python `IndexError` from an out-of-range sequence subscript, and a Python
`struct.error` from packing an out-of-range value.  `fuelOut` is an artifact
of the fuel-based loop embedding; the development proves it is never
returned when the fuel bound exceeds the blob length. -/
inductive BindErr where
  | invalidBinary : BindErr
  | indexError : BindErr
  | structError : BindErr
  | fuelOut : BindErr
  deriving DecidableEq, Repr

/-- Loop of `read_uleb` (binding.py lines 21-35): accumulate 7-bit groups
until a byte with the high bit clear or the end of the blob.  The Python
`while index < len(blob)` loop is embedded as a structural walk of the
blob's suffix from `index`; `index` is carried along to report the final
cursor position. -/
def readUlebLoop : List Nat → Nat → Nat → Nat → Nat × Nat
  | [], index, _, result => (result, index)
  | b :: rest, index, shift, result =>
      if b &&& 0x80 = 0 then (result ||| ((b &&& 0x7f) <<< shift), index + 1)
      else readUlebLoop rest (index + 1) (shift + 7)
        (result ||| ((b &&& 0x7f) <<< shift))

/-- `read_uleb` from binding.py: reads a ULEB128-encoded number, returning
the value and the number of bytes consumed. -/
def read_uleb (blob : List Nat) (offset : Nat) : Nat × Nat :=
  let r := readUlebLoop (blob.drop offset) offset 0 0
  (r.1, r.2 - offset)

/-- Loop of `read_sleb` (binding.py lines 37-54): like `readUlebLoop`, but
on the terminating byte, if bit 6 is set the accumulated value is
sign-extended by subtracting `1 <<< shift` with `shift` already advanced
by 7, as in the source. -/
def readSlebLoop : List Nat → Nat → Nat → Nat → Int × Nat
  | [], index, _, result => ((result : Int), index)
  | b :: rest, index, shift, result =>
      if b &&& 0x80 = 0 then
        (if b &&& 0x40 ≠ 0 then
           ((result ||| ((b &&& 0x7f) <<< shift) : Nat) : Int) -
             ((1 <<< (shift + 7) : Nat) : Int)
         else ((result ||| ((b &&& 0x7f) <<< shift) : Nat) : Int), index + 1)
      else readSlebLoop rest (index + 1) (shift + 7)
        (result ||| ((b &&& 0x7f) <<< shift))

/-- `read_sleb` from binding.py: reads an SLEB128-encoded number, returning
the value and the number of bytes consumed. -/
def read_sleb (blob : List Nat) (offset : Nat) : Int × Nat :=
  let r := readSlebLoop (blob.drop offset) offset 0 0
  (r.1, r.2 - offset)

/-- Standard ULEB128 encoder (the spec's reference encoder for the
round-trip law; not part of the source). -/
def encode_uleb (n : Nat) : List Nat :=
  if n < 0x80 then [n]
  else (n % 0x80 + 0x80) :: encode_uleb (n / 0x80)
  decreasing_by exact Nat.div_lt_self (by omega) (by omega)

/-- Standard SLEB128 encoder, branch for non-negative inputs: emit 7 bits
at a time, stopping when the remaining value is 0 and the just-emitted
byte has bit 6 clear. -/
def encodeSlebPos (n : Nat) : List Nat :=
  if n < 0x40 then [n]
  else (n % 0x80 + 0x80) :: encodeSlebPos (n / 0x80)
  decreasing_by exact Nat.div_lt_self (by omega) (by omega)

/-- Standard SLEB128 encoder, branch for negative inputs: `encodeSlebNeg m`
encodes the integer `-(m+1)`, stopping when the remaining value is -1 and
the just-emitted byte has bit 6 set. -/
def encodeSlebNeg (m : Nat) : List Nat :=
  if m < 0x40 then [0x7f - m]
  else (0xff - m % 0x80) :: encodeSlebNeg (m / 0x80)
  decreasing_by exact Nat.div_lt_self (by omega) (by omega)

/-- Standard SLEB128 encoder (the spec's reference encoder), split on the
sign of the input. -/
def encode_sleb (z : Int) : List Nat :=
  if 0 ≤ z then encodeSlebPos z.toNat else encodeSlebNeg (-(z + 1)).toNat

/-- A value below `2 ^ s` bitwise-ored with a value shifted left by `s` is
their sum: the two operands occupy disjoint bit ranges. -/
theorem lor_shiftLeft_eq_add {a : Nat} (x s : Nat) (h : a < 2 ^ s) :
    a ||| x <<< s = a + x * 2 ^ s := by
  have hmod : (a ||| x <<< s) % 2 ^ s = a := by
    apply Nat.eq_of_testBit_eq
    intro i
    simp only [Nat.testBit_mod_two_pow, Nat.testBit_lor, Nat.testBit_shiftLeft]
    by_cases hi : i < s
    · simp [hi, Nat.not_le.mpr hi]
    · have : a.testBit i = false := by
        refine Nat.testBit_lt_two_pow (lt_of_lt_of_le h ?_)
        exact Nat.pow_le_pow_right (by omega) (Nat.not_lt.mp hi)
      simp [hi, this]
  have hdiv : (a ||| x <<< s) / 2 ^ s = x := by
    rw [← Nat.shiftRight_eq_div_pow]
    apply Nat.eq_of_testBit_eq
    intro i
    have ha : a.testBit (s + i) = false := by
      refine Nat.testBit_lt_two_pow (lt_of_lt_of_le h ?_)
      exact Nat.pow_le_pow_right (by omega) (by omega)
    simp [Nat.testBit_shiftRight, Nat.testBit_lor, Nat.testBit_shiftLeft, ha,
      Nat.le_add_right, Nat.add_sub_cancel_left]
  calc a ||| x <<< s
      = 2 ^ s * ((a ||| x <<< s) / 2 ^ s) + (a ||| x <<< s) % 2 ^ s :=
        (Nat.div_add_mod _ _).symm
    _ = a + x * 2 ^ s := by rw [hmod, hdiv]; ring

/-- Bit 7 of a byte-sized value below 0x80 is clear. -/
theorem and_128_eq_zero {b : Nat} (h : b < 0x80) : b &&& 0x80 = 0 := by
  have h7 : b.testBit 7 = false := Nat.testBit_lt_two_pow (by omega)
  have := Nat.and_two_pow b 7
  norm_num at this
  simp [this, h7]

/-- Bit 7 of a value in [0x80, 0x100) is set. -/
theorem and_128_ne_zero {b : Nat} (h1 : 0x80 ≤ b) (h2 : b < 0x100) :
    b &&& 0x80 ≠ 0 := by
  have h7 : b.testBit 7 = true := by
    simp only [Nat.testBit_to_div_mod]
    have : b / 128 = 1 := by omega
    simp [this]
  have := Nat.and_two_pow b 7
  norm_num at this
  simp [this, h7]

/-- Bit 6 of a value below 0x40 is clear. -/
theorem and_64_eq_zero {b : Nat} (h : b < 0x40) : b &&& 0x40 = 0 := by
  have h6 : b.testBit 6 = false := Nat.testBit_lt_two_pow (by omega)
  have := Nat.and_two_pow b 6
  norm_num at this
  simp [this, h6]

/-- Bit 6 of a value in [0x40, 0x80) is set. -/
theorem and_64_ne_zero {b : Nat} (h1 : 0x40 ≤ b) (h2 : b < 0x80) :
    b &&& 0x40 ≠ 0 := by
  have h6 : b.testBit 6 = true := by
    simp only [Nat.testBit_to_div_mod]
    have : b / 64 = 1 := by omega
    simp [this]
  have := Nat.and_two_pow b 6
  norm_num at this
  simp [this, h6]

/-- Masking with 0x7f takes the value modulo 0x80. -/
theorem and_127_eq_mod (b : Nat) : b &&& 0x7f = b % 0x80 := by
  have := Nat.and_pow_two_sub_one_eq_mod b 7
  norm_num at this
  exact this

/-- Decoding at an encoded ULEB128 value adds the encoded number (shifted
into place) to the accumulator and consumes exactly the bytes of the
encoding. -/
theorem readUlebLoop_encode (n : Nat) :
    ∀ (post : List Nat) (index shift result : Nat), result < 2 ^ shift →
      readUlebLoop (encode_uleb n ++ post) index shift result =
        (result + n * 2 ^ shift, index + (encode_uleb n).length) := by
  induction n using encode_uleb.induct with
  | case1 n hn =>
    intro post index shift result hres
    rw [encode_uleb, if_pos hn]
    show readUlebLoop (n :: post) index shift result = _
    rw [readUlebLoop, if_pos (and_128_eq_zero (by omega))]
    rw [and_127_eq_mod, Nat.mod_eq_of_lt hn, lor_shiftLeft_eq_add _ _ hres]
    simp [encode_uleb, hn]
  | case2 n hn ih =>
    intro post index shift result hres
    rw [encode_uleb, if_neg hn]
    show readUlebLoop ((n % 0x80 + 0x80) :: (encode_uleb (n / 0x80) ++ post))
        index shift result = _
    rw [readUlebLoop, if_neg (and_128_ne_zero (by omega) (by omega))]
    rw [and_127_eq_mod, show (n % 0x80 + 0x80) % 0x80 = n % 0x80 from by omega,
      lor_shiftLeft_eq_add _ _ hres]
    have hres' : result + n % 0x80 * 2 ^ shift < 2 ^ (shift + 7) := by
      have h1 : n % 0x80 ≤ 127 := by omega
      have h2 : n % 0x80 * 2 ^ shift ≤ 127 * 2 ^ shift :=
        Nat.mul_le_mul_right _ h1
      have h3 : (2 : Nat) ^ (shift + 7) = 2 ^ shift * 128 := by
        rw [pow_add]; norm_num
      omega
    rw [ih post (index + 1) (shift + 7) _ hres']
    simp only [Prod.mk.injEq]
    constructor
    · have hsplit : n % 0x80 + 0x80 * (n / 0x80) = n := Nat.mod_add_div n 0x80
      have h3 : (2 : Nat) ^ (shift + 7) = 2 ^ shift * 128 := by
        rw [pow_add]; norm_num
      calc result + n % 0x80 * 2 ^ shift + n / 0x80 * 2 ^ (shift + 7)
          = result + (n % 0x80 + 0x80 * (n / 0x80)) * 2 ^ shift := by
            rw [h3]; ring
        _ = result + n * 2 ^ shift := by rw [hsplit]
    · simp only [List.length_cons]
      omega

/-- Decoding at an `encodeSlebPos` encoding yields the (non-negative)
encoded value, shifted into place and added to the accumulator, consuming
exactly the encoding. -/
theorem readSlebLoop_encodePos (n : Nat) :
    ∀ (post : List Nat) (index shift result : Nat), result < 2 ^ shift →
      readSlebLoop (encodeSlebPos n ++ post) index shift result =
        (((result + n * 2 ^ shift : Nat) : Int),
          index + (encodeSlebPos n).length) := by
  induction n using encodeSlebPos.induct with
  | case1 n hn =>
    intro post index shift result hres
    rw [encodeSlebPos, if_pos hn]
    show readSlebLoop (n :: post) index shift result = _
    rw [readSlebLoop, if_pos (and_128_eq_zero (by omega))]
    rw [and_127_eq_mod, Nat.mod_eq_of_lt (by omega),
      lor_shiftLeft_eq_add _ _ hres]
    simp [encodeSlebPos, hn, and_64_eq_zero hn]
  | case2 n hn ih =>
    intro post index shift result hres
    rw [encodeSlebPos, if_neg hn]
    show readSlebLoop ((n % 0x80 + 0x80) :: (encodeSlebPos (n / 0x80) ++ post))
        index shift result = _
    rw [readSlebLoop, if_neg (and_128_ne_zero (by omega) (by omega))]
    rw [and_127_eq_mod, show (n % 0x80 + 0x80) % 0x80 = n % 0x80 from by omega,
      lor_shiftLeft_eq_add _ _ hres]
    have hres' : result + n % 0x80 * 2 ^ shift < 2 ^ (shift + 7) := by
      have h1 : n % 0x80 ≤ 127 := by omega
      have h2 : n % 0x80 * 2 ^ shift ≤ 127 * 2 ^ shift :=
        Nat.mul_le_mul_right _ h1
      have h3 : (2 : Nat) ^ (shift + 7) = 2 ^ shift * 128 := by
        rw [pow_add]; norm_num
      omega
    rw [ih post (index + 1) (shift + 7) _ hres']
    simp only [Prod.mk.injEq]
    constructor
    · have hsplit : n % 0x80 + 0x80 * (n / 0x80) = n := Nat.mod_add_div n 0x80
      have h3 : (2 : Nat) ^ (shift + 7) = 2 ^ shift * 128 := by
        rw [pow_add]; norm_num
      congr 1
      calc result + n % 0x80 * 2 ^ shift + n / 0x80 * 2 ^ (shift + 7)
          = result + (n % 0x80 + 0x80 * (n / 0x80)) * 2 ^ shift := by
            rw [h3]; ring
        _ = result + n * 2 ^ shift := by rw [hsplit]
    · simp only [List.length_cons]
      omega

/-- Decoding at an `encodeSlebNeg` encoding yields the negative value
`-(m+1)`, shifted into place and added to the accumulator, consuming
exactly the encoding. -/
theorem readSlebLoop_encodeNeg (m : Nat) :
    ∀ (post : List Nat) (index shift result : Nat), result < 2 ^ shift →
      readSlebLoop (encodeSlebNeg m ++ post) index shift result =
        ((result : Int) - ((m : Int) + 1) * ((2 : Int) ^ shift),
          index + (encodeSlebNeg m).length) := by
  induction m using encodeSlebNeg.induct with
  | case1 m hm =>
    intro post index shift result hres
    rw [encodeSlebNeg, if_pos hm]
    show readSlebLoop ((0x7f - m) :: post) index shift result = _
    rw [readSlebLoop, if_pos (and_128_eq_zero (by omega))]
    rw [and_127_eq_mod, Nat.mod_eq_of_lt (by omega),
      lor_shiftLeft_eq_add _ _ hres]
    rw [if_pos (and_64_ne_zero (by omega) (by omega))]
    simp only [Prod.mk.injEq]
    constructor
    · rw [Nat.shiftLeft_eq, one_mul]
      push_cast [Nat.cast_sub (show m ≤ 0x7f from by omega)]
      rw [pow_add]
      ring
    · simp
  | case2 m hm ih =>
    intro post index shift result hres
    rw [encodeSlebNeg, if_neg hm]
    show readSlebLoop ((0xff - m % 0x80) :: (encodeSlebNeg (m / 0x80) ++ post))
        index shift result = _
    rw [readSlebLoop, if_neg (and_128_ne_zero (by omega) (by omega))]
    rw [and_127_eq_mod,
      show (0xff - m % 0x80) % 0x80 = 0x7f - m % 0x80 from by omega,
      lor_shiftLeft_eq_add _ _ hres]
    have hres' : result + (0x7f - m % 0x80) * 2 ^ shift < 2 ^ (shift + 7) := by
      have h1 : 0x7f - m % 0x80 ≤ 127 := by omega
      have h2 : (0x7f - m % 0x80) * 2 ^ shift ≤ 127 * 2 ^ shift :=
        Nat.mul_le_mul_right _ h1
      have h3 : (2 : Nat) ^ (shift + 7) = 2 ^ shift * 128 := by
        rw [pow_add]; norm_num
      omega
    rw [ih post (index + 1) (shift + 7) _ hres']
    simp only [Prod.mk.injEq]
    constructor
    · obtain ⟨q, r, hqr, hrlt⟩ : ∃ q r, m = 0x80 * q + r ∧ r < 0x80 :=
        ⟨m / 0x80, m % 0x80, by omega, by omega⟩
      have h1 : m / 0x80 = q := by omega
      have h2 : m % 0x80 = r := by omega
      rw [h1, h2, hqr, pow_add]
      push_cast [Nat.cast_sub (show r ≤ 0x7f from by omega)]
      ring
    · simp only [List.length_cons]
      omega

/-- Round trip for `read_uleb` against the standard encoder, at an
arbitrary offset inside a larger blob. -/
theorem read_uleb_encode (n : Nat) (pre post : List Nat) :
    read_uleb (pre ++ encode_uleb n ++ post) pre.length =
      (n, (encode_uleb n).length) := by
  simp only [read_uleb]
  rw [List.append_assoc, List.drop_left pre (encode_uleb n ++ post)]
  rw [readUlebLoop_encode n post pre.length 0 0 (by norm_num)]
  simp

/-- Round trip for `read_sleb` against the standard encoder, at an
arbitrary offset inside a larger blob. -/
theorem read_sleb_encode (z : Int) (pre post : List Nat) :
    read_sleb (pre ++ encode_sleb z ++ post) pre.length =
      (z, (encode_sleb z).length) := by
  simp only [read_sleb, encode_sleb]
  by_cases hz : 0 ≤ z
  · rw [if_pos hz, List.append_assoc, List.drop_left pre (encodeSlebPos z.toNat ++ post),
      readSlebLoop_encodePos z.toNat post pre.length 0 0 (by norm_num)]
    simp [Int.toNat_of_nonneg hz]
  · rw [if_neg hz, List.append_assoc, List.drop_left pre (encodeSlebNeg (-(z + 1)).toNat ++ post),
      readSlebLoop_encodeNeg (-(z + 1)).toNat post pre.length 0 0 (by norm_num)]
    have hcast : (((-(z + 1)).toNat : Int)) = -(z + 1) :=
      Int.toNat_of_nonneg (by omega)
    rw [hcast]
    simp only [Prod.mk.injEq]
    refine ⟨by push_cast; ring, by omega⟩

/-- A Mach-O segment as seen by the interpreter (spec section 6): virtual
address and in-memory size. -/
structure Segment where
  vaddr : Nat
  memsize : Nat
  deriving DecidableEq, Repr

/-- A Mach-O image symbol as seen by the interpreter: name (byte string),
library ordinal, stab flag, resolved address (0 means unresolved), and the
list of patched locations. -/
structure MachOSymbol where
  name : List Nat
  library_ordinal : Int
  is_stab : Bool
  linked_addr : Nat
  bind_xrefs : List Nat
  deriving DecidableEq, Repr

/-- One recorded `memory.store` call: the load virtual address passed to
the address translator, the translated relative virtual address, and the
packed bytes. -/
structure StoreEvent where
  lva : Nat
  rva : Nat
  data : List Nat
  deriving DecidableEq, Repr

/-- The image under binding: segments, the symbol collection (a store of
symbol objects; `ordered_symbols` holds indices into it, mirroring Python
reference aliasing), architecture bitness, byte order, the external
load-to-relative address translator, and the log of memory stores. -/
structure Binary where
  segments : List Segment
  symbols : List MachOSymbol
  ordered_symbols : List Nat
  is64 : Bool
  bigEndian : Bool
  lva_to_rva : Nat → Nat
  stores : List StoreEvent

/-- The binding VM register file, `BindingState.__init__` fields
(binding.py lines 59-72). -/
structure BindingState where
  index : Nat
  done : Bool
  lib_ord : Int
  sym_name : List Nat
  sym_flags : Nat
  binding_type : Nat
  addend : Int
  segment_index : Nat
  address : Nat
  seg_end_address : Nat
  wraparound : Nat
  sizeof_intptr_t : Nat
  deriving DecidableEq, Repr

/-- `BindingState.__init__` (binding.py lines 59-72). -/
def initBindingState (is_64 : Bool) : BindingState where
  index := 0
  done := false
  lib_ord := 0
  sym_name := []
  sym_flags := 0
  binding_type := 0
  addend := 0
  segment_index := 0
  address := 0
  seg_end_address := 0
  wraparound := 2 ^ 64
  sizeof_intptr_t := if is_64 then 8 else 4

/-- `BindingState.add_address_ov` (binding.py lines 74-80).  Note the
source's strict comparison `tmp > self.wraparound` and single subtraction,
which is what the development measures against `(a + d) mod 2^64`. -/
def BindingState.add_address_ov (s : BindingState) (address addend : Nat) :
    BindingState :=
  let tmp := address + addend
  if tmp > s.wraparound then {s with address := tmp - s.wraparound}
  else {s with address := tmp}

/-- `BindingState.check_address_bounds` (binding.py lines 82-85): raises
`CLEInvalidBinaryError` exactly when `address >= seg_end_address`. -/
def BindingState.check_address_bounds (s : BindingState) : Except BindErr Unit :=
  if s.address ≥ s.seg_end_address then .error .invalidBinary else .ok ()

/-- Little-endian byte list of `v`, `width` bytes long. -/
def leBytes (width v : Nat) : List Nat :=
  match width with
  | 0 => []
  | w + 1 => (v % 0x100) :: leBytes w (v / 0x100)

/-- Model of Python `struct.pack` for the unsigned formats "I" and "Q" used
by the source: raises `struct.error` if the value does not fit the unsigned
width, otherwise emits the bytes in the requested byte order. -/
def structPack (bigEndian : Bool) (width : Nat) (v : Int) :
    Except BindErr (List Nat) :=
  if 0 ≤ v ∧ v < (2 : Int) ^ (8 * width) then
    let bytes := leBytes width v.toNat
    .ok (if bigEndian then bytes.reverse else bytes)
  else .error .structError

/-- Modelled from the spec: the `BindingSymbol(binary, name, lib_ord)`
constructor lives in the repository's `symbol.py`, which is not under
`src/`.  Per spec sections 3 and 8 (scenario 4) it is a placeholder symbol
carrying the given name and library ordinal, it is not a stab, its
`linked_addr` is 0 (unresolved import), and it starts with no bind
cross-references. -/
def BindingSymbol (name : List Nat) (lib_ord : Int) : MachOSymbol where
  name := name
  library_ordinal := lib_ord
  is_stab := false
  linked_addr := 0
  bind_xrefs := []

/-- Record one `binary.memory.store` call: the external address translator
(`AT.from_lva(...).to_rva()`) converts the load virtual address, and the
packed bytes are logged. -/
def Binary.store (b : Binary) (lva : Nat) (data : List Nat) : Binary :=
  {b with stores := b.stores ++ [⟨lva, b.lva_to_rva lva, data⟩]}

/-- The per-symbol filter of `default_binding_handler` (binding.py lines
330-333): name and library ordinal equal to the state's, and not a stab. -/
def symMatch (state : BindingState) (t : MachOSymbol) : Bool :=
  t.name = state.sym_name && t.library_ordinal = state.lib_ord &&
    t.is_stab = false

/-- Indices into `binary.symbols` of the symbols passing `symMatch` (the
`filter` in `default_binding_handler`, binding.py lines 328-335). -/
def symbolMatches (state : BindingState) (binary : Binary) : List Nat :=
  (List.range binary.symbols.length).filter fun i =>
    match binary.symbols[i]? with
    | some t => symMatch state t
    | none => false

/-- The symbol-lookup phase of `default_binding_handler` (binding.py lines
326-345): more than one match raises `CLEInvalidBinaryError`; no match
creates a `BindingSymbol` placeholder and appends it to the image's symbol
collection and to `_ordered_symbols`; otherwise the unique match is used.
Returns the (possibly extended) binary and the index of the chosen
symbol. -/
def resolveSymbol (state : BindingState) (binary : Binary) :
    Except (BindErr × Binary) (Binary × Nat) :=
  match symbolMatches state binary with
  | [] =>
      let ph := BindingSymbol state.sym_name state.lib_ord
      let b1 := { binary with
                  symbols := binary.symbols ++ [ph],
                  ordered_symbols :=
                    binary.ordered_symbols ++ [binary.symbols.length] }
      .ok (b1, binary.symbols.length)
  | [i] => .ok (binary, i)
  | _ :: _ :: _ => .error (.invalidBinary, binary)

/-- Append a bind cross-reference to the symbol at index `idx` (the Python
`symbol.bind_xrefs.append(location)`; `symbol` aliases the entry of
`binary.symbols`, modelled by positional update). -/
def Binary.appendXref (b : Binary) (idx loc : Nat) : Binary :=
  match b.symbols[idx]? with
  | some t =>
      {b with symbols :=
        b.symbols.set idx {t with bind_xrefs := t.bind_xrefs ++ [loc]}}
  | none => b

/-- `default_binding_handler` (binding.py lines 322-377): resolve the
symbol, compute the value (the addend is suppressed when `linked_addr` is
0), and patch the image according to `binding_type`, logging the store and
appending the bind cross-reference.  An unknown binding type raises
`CLEInvalidBinaryError`; an out-of-range pack raises `struct.error`. -/
def default_binding_handler (state : BindingState) (binary : Binary) :
    Except (BindErr × Binary) Binary :=
  match resolveSymbol state binary with
  | .error e => .error e
  | .ok (b1, idx) =>
    match b1.symbols[idx]? with
    | none => .error (.indexError, b1)
    | some symbol =>
      let location := state.address
      let value : Int :=
        if symbol.linked_addr ≠ 0 then (symbol.linked_addr : Int) + state.addend
        else 0
      if state.binding_type = 1 then
        match structPack b1.bigEndian (if b1.is64 then 8 else 4) value with
        | .error e => .error (e, b1)
        | .ok data => .ok ((b1.store location data).appendXref idx location)
      else if state.binding_type = 2 then
        let location_32 := location % 2 ^ 32
        let value_32 := value.emod (2 ^ 32)
        match structPack b1.bigEndian 4 value_32 with
        | .error e => .error (e, b1)
        | .ok data => .ok ((b1.store location_32 data).appendXref idx location_32)
      else if state.binding_type = 3 then
        let location_32 := location % 2 ^ 32
        let value_32 := (value - ((location : Int) + 4)).emod (2 ^ 32)
        match structPack b1.bigEndian 4 value_32 with
        | .error e => .error (e, b1)
        | .ok data => .ok ((b1.store location_32 data).appendXref idx location_32)
      else .error (.invalidBinary, b1)

/-- Result of one opcode handler.  The Python functions mutate state and
binary in place and may raise; errors carry the binary as mutated so far. -/
abbrev HandlerResult := Except (BindErr × Binary) (BindingState × Binary)

/-- Type of an opcode handler: `(state, binary, immediate, blob) => state`
(binding.py line 193), with the mutated binary threaded explicitly. -/
abbrev OpcodeHandler := BindingState → Binary → Nat → List Nat → HandlerResult

/-- Opcode constants from `macholib.mach_o` (Apple `mach-o/loader.h`). -/
def BIND_OPCODE_MASK : Nat := 0xF0

/-- Immediate mask from `macholib.mach_o`. -/
def BIND_IMMEDIATE_MASK : Nat := 0x0F

/-- `BIND_OPCODE_DONE`. -/
def BIND_OPCODE_DONE : Nat := 0x00

/-- `BIND_OPCODE_SET_DYLIB_ORDINAL_IMM`. -/
def BIND_OPCODE_SET_DYLIB_ORDINAL_IMM : Nat := 0x10

/-- `BIND_OPCODE_SET_DYLIB_ORDINAL_ULEB`. -/
def BIND_OPCODE_SET_DYLIB_ORDINAL_ULEB : Nat := 0x20

/-- `BIND_OPCODE_SET_DYLIB_SPECIAL_IMM`. -/
def BIND_OPCODE_SET_DYLIB_SPECIAL_IMM : Nat := 0x30

/-- `BIND_OPCODE_SET_SYMBOL_TRAILING_FLAGS_IMM`. -/
def BIND_OPCODE_SET_SYMBOL_TRAILING_FLAGS_IMM : Nat := 0x40

/-- `BIND_OPCODE_SET_TYPE_IMM`. -/
def BIND_OPCODE_SET_TYPE_IMM : Nat := 0x50

/-- `BIND_OPCODE_SET_ADDEND_SLEB`. -/
def BIND_OPCODE_SET_ADDEND_SLEB : Nat := 0x60

/-- `BIND_OPCODE_SET_SEGMENT_AND_OFFSET_ULEB`. -/
def BIND_OPCODE_SET_SEGMENT_AND_OFFSET_ULEB : Nat := 0x70

/-- `BIND_OPCODE_ADD_ADDR_ULEB`. -/
def BIND_OPCODE_ADD_ADDR_ULEB : Nat := 0x80

/-- `BIND_OPCODE_DO_BIND`. -/
def BIND_OPCODE_DO_BIND : Nat := 0x90

/-- `BIND_OPCODE_DO_BIND_ADD_ADDR_ULEB`. -/
def BIND_OPCODE_DO_BIND_ADD_ADDR_ULEB : Nat := 0xA0

/-- `BIND_OPCODE_DO_BIND_ADD_ADDR_IMM_SCALED`. -/
def BIND_OPCODE_DO_BIND_ADD_ADDR_IMM_SCALED : Nat := 0xB0

/-- `BIND_OPCODE_DO_BIND_ULEB_TIMES_SKIPPING_ULEB`. -/
def BIND_OPCODE_DO_BIND_ULEB_TIMES_SKIPPING_ULEB : Nat := 0xC0

/-- `n_opcode_done` (binding.py lines 194-197). -/
def n_opcode_done : OpcodeHandler := fun s b _ _ =>
  .ok ({s with done := true}, b)

/-- `n_opcode_set_dylib_ordinal_imm` (binding.py lines 199-202). -/
def n_opcode_set_dylib_ordinal_imm : OpcodeHandler := fun s b i _ =>
  .ok ({s with lib_ord := (i : Int)}, b)

/-- `n_opcode_set_dylib_ordinal_uleb` (binding.py lines 204-209). -/
def n_opcode_set_dylib_ordinal_uleb : OpcodeHandler := fun s b _ blob =>
  let uleb := read_uleb blob s.index
  .ok ({s with lib_ord := (uleb.1 : Int), index := s.index + uleb.2}, b)

/-- `n_opcode_set_dylib_special_imm` (binding.py lines 211-217). -/
def n_opcode_set_dylib_special_imm : OpcodeHandler := fun s b i _ =>
  if i = 0 then .ok ({s with lib_ord := 0}, b)
  else .ok ({s with lib_ord := ((i ||| BIND_OPCODE_MASK : Nat) : Int) - 256}, b)

/-- Scan loop of `n_opcode_set_trailing_flags_imm` (binding.py lines
223-226), walking the blob's suffix: collect bytes until a NUL;
`blob[s.index]` past the end of the blob is a Python `IndexError`. -/
def scanSymbolLoop : List Nat → Nat → List Nat → Except BindErr (List Nat × Nat)
  | [], _, _ => .error .indexError
  | c :: rest, index, acc =>
      if c ≠ 0 then scanSymbolLoop rest (index + 1) (acc ++ [c])
      else .ok (acc, index)

/-- The scan of the NUL-terminated symbol name starting at `blob[index]`
(binding.py lines 223-226). -/
def scanSymbolName (blob : List Nat) (index : Nat) (acc : List Nat) :
    Except BindErr (List Nat × Nat) :=
  scanSymbolLoop (blob.drop index) index acc

/-- `n_opcode_set_trailing_flags_imm` (binding.py lines 219-229): reset
the symbol name, record the flags, scan the NUL-terminated name, and move
the cursor past the NUL byte. -/
def n_opcode_set_trailing_flags_imm : OpcodeHandler := fun s b i blob =>
  match scanSymbolName blob s.index [] with
  | .error e => .error (e, b)
  | .ok (name, stop) =>
      .ok ({s with sym_name := name, sym_flags := i, index := stop + 1}, b)

/-- `n_opcode_set_type_imm` (binding.py lines 231-234). -/
def n_opcode_set_type_imm : OpcodeHandler := fun s b i _ =>
  .ok ({s with binding_type := i}, b)

/-- `n_opcode_set_addend_sleb` (binding.py lines 236-241). -/
def n_opcode_set_addend_sleb : OpcodeHandler := fun s b _ blob =>
  let sleb := read_sleb blob s.index
  .ok ({s with addend := sleb.1, index := s.index + sleb.2}, b)

/-- `n_opcode_set_segment_and_offset_uleb` (binding.py lines 243-252):
select the segment from the immediate, read the ULEB offset, set the
address via the overflow-adjusted addition, and update
`seg_end_address`. -/
def n_opcode_set_segment_and_offset_uleb : OpcodeHandler := fun s b i blob =>
  let s1 := {s with segment_index := i}
  let uleb := read_uleb blob s1.index
  let s2 := {s1 with index := s1.index + uleb.2}
  match b.segments[s2.segment_index]? with
  | none => .error (.indexError, b)
  | some seg =>
      let s3 := s2.add_address_ov seg.vaddr uleb.1
      .ok ({s3 with seg_end_address := seg.vaddr + seg.memsize}, b)

/-- `l_opcode_set_segment_and_offset_uleb` (binding.py lines 254-260):
same address computation from segment `immediate`, but `seg_end_address`
is left unchanged. -/
def l_opcode_set_segment_and_offset_uleb : OpcodeHandler := fun s b i blob =>
  let uleb := read_uleb blob s.index
  match b.segments[i]? with
  | none => .error (.indexError, b)
  | some seg =>
      let s1 := s.add_address_ov seg.vaddr uleb.1
      .ok ({s1 with index := s1.index + uleb.2}, b)

/-- `n_opcode_add_addr_uleb` (binding.py lines 262-267). -/
def n_opcode_add_addr_uleb : OpcodeHandler := fun s b _ blob =>
  let uleb := read_uleb blob s.index
  let s1 := s.add_address_ov s.address uleb.1
  .ok ({s1 with index := s1.index + uleb.2}, b)

/-- `n_opcode_do_bind` (binding.py lines 269-274): bounds check, fixup,
then advance the address by the pointer size. -/
def n_opcode_do_bind : OpcodeHandler := fun s b _ _ =>
  if s.address ≥ s.seg_end_address then .error (.invalidBinary, b)
  else
    match default_binding_handler s b with
    | .error e => .error e
    | .ok b1 => .ok (s.add_address_ov s.address s.sizeof_intptr_t, b1)

/-- `l_opcode_do_bind` (binding.py lines 276-279): fixup only. -/
def l_opcode_do_bind : OpcodeHandler := fun s b _ _ =>
  match default_binding_handler s b with
  | .error e => .error e
  | .ok b1 => .ok (s, b1)

/-- `n_opcode_do_bind_add_addr_uleb` (binding.py lines 281-292). -/
def n_opcode_do_bind_add_addr_uleb : OpcodeHandler := fun s b _ blob =>
  let uleb := read_uleb blob s.index
  if s.address ≥ s.seg_end_address then .error (.invalidBinary, b)
  else
    let s1 := {s with index := s.index + uleb.2}
    match default_binding_handler s1 b with
    | .error e => .error e
    | .ok b1 => .ok (s1.add_address_ov s1.address (uleb.1 + s1.sizeof_intptr_t), b1)

/-- `n_opcode_do_bind_add_addr_imm_scaled` (binding.py lines 294-303). -/
def n_opcode_do_bind_add_addr_imm_scaled : OpcodeHandler := fun s b i _ =>
  if s.address ≥ s.seg_end_address then .error (.invalidBinary, b)
  else
    match default_binding_handler s b with
    | .error e => .error e
    | .ok b1 =>
        .ok (s.add_address_ov s.address (i * s.sizeof_intptr_t + s.sizeof_intptr_t), b1)

/-- The `for` loop of `n_opcode_do_bind_uleb_times_skipping_uleb`
(binding.py lines 312-318): `count` iterations of bounds check, fixup, and
stride advance. -/
def doBindTimesLoop (count skip : Nat) (s : BindingState) (b : Binary) :
    HandlerResult :=
  match count with
  | 0 => .ok (s, b)
  | c + 1 =>
    if s.address ≥ s.seg_end_address then .error (.invalidBinary, b)
    else
      match default_binding_handler s b with
      | .error e => .error e
      | .ok b1 =>
          doBindTimesLoop c skip (s.add_address_ov s.address (skip + s.sizeof_intptr_t)) b1

/-- `n_opcode_do_bind_uleb_times_skipping_uleb` (binding.py lines
305-319): read the count and skip ULEBs, then run the bind loop. -/
def n_opcode_do_bind_uleb_times_skipping_uleb : OpcodeHandler := fun s b _ blob =>
  let count := read_uleb blob s.index
  let s1 := {s with index := s.index + count.2}
  let skip := read_uleb blob s1.index
  let s2 := {s1 with index := s1.index + skip.2}
  doBindTimesLoop count.1 skip.1 s2 b

/-- The handler dictionary of `do_normal_bind` (binding.py lines
108-122). -/
def normalOpcodeTable (op : Nat) : Option OpcodeHandler :=
  if op = BIND_OPCODE_DONE then some n_opcode_done
  else if op = BIND_OPCODE_SET_DYLIB_ORDINAL_IMM then some n_opcode_set_dylib_ordinal_imm
  else if op = BIND_OPCODE_SET_DYLIB_ORDINAL_ULEB then some n_opcode_set_dylib_ordinal_uleb
  else if op = BIND_OPCODE_SET_DYLIB_SPECIAL_IMM then some n_opcode_set_dylib_special_imm
  else if op = BIND_OPCODE_SET_SYMBOL_TRAILING_FLAGS_IMM then some n_opcode_set_trailing_flags_imm
  else if op = BIND_OPCODE_SET_TYPE_IMM then some n_opcode_set_type_imm
  else if op = BIND_OPCODE_SET_ADDEND_SLEB then some n_opcode_set_addend_sleb
  else if op = BIND_OPCODE_SET_SEGMENT_AND_OFFSET_ULEB then some n_opcode_set_segment_and_offset_uleb
  else if op = BIND_OPCODE_ADD_ADDR_ULEB then some n_opcode_add_addr_uleb
  else if op = BIND_OPCODE_DO_BIND then some n_opcode_do_bind
  else if op = BIND_OPCODE_DO_BIND_ADD_ADDR_ULEB then some n_opcode_do_bind_add_addr_uleb
  else if op = BIND_OPCODE_DO_BIND_ADD_ADDR_IMM_SCALED then some n_opcode_do_bind_add_addr_imm_scaled
  else if op = BIND_OPCODE_DO_BIND_ULEB_TIMES_SKIPPING_ULEB then some n_opcode_do_bind_uleb_times_skipping_uleb
  else none

/-- The handler dictionary of `do_lazy_bind` (binding.py lines 151-160). -/
def lazyOpcodeTable (op : Nat) : Option OpcodeHandler :=
  if op = BIND_OPCODE_DONE then some n_opcode_done
  else if op = BIND_OPCODE_SET_DYLIB_ORDINAL_IMM then some n_opcode_set_dylib_ordinal_imm
  else if op = BIND_OPCODE_SET_DYLIB_ORDINAL_ULEB then some n_opcode_set_dylib_ordinal_uleb
  else if op = BIND_OPCODE_SET_DYLIB_SPECIAL_IMM then some n_opcode_set_dylib_special_imm
  else if op = BIND_OPCODE_SET_SYMBOL_TRAILING_FLAGS_IMM then some n_opcode_set_trailing_flags_imm
  else if op = BIND_OPCODE_SET_TYPE_IMM then some n_opcode_set_type_imm
  else if op = BIND_OPCODE_SET_SEGMENT_AND_OFFSET_ULEB then some l_opcode_set_segment_and_offset_uleb
  else if op = BIND_OPCODE_DO_BIND then some l_opcode_do_bind
  else none

/-- The dispatch loop of `BindingHelper._do_bind_generic` (binding.py
lines 177-188): while not done and bytes remain, fetch the opcode byte,
split it, advance the cursor, and dispatch; a missing opcode (Python
`KeyError`) is caught, logged, and the loop continues.  `fuel` bounds the
iteration count in the embedding; it is proved below that any fuel above
the blob length is never exhausted. -/
def dispatchLoop (fuel : Nat) (blob : List Nat) (table : Nat → Option OpcodeHandler)
    (s : BindingState) (b : Binary) : HandlerResult :=
  match fuel with
  | 0 => .error (.fuelOut, b)
  | fuel + 1 =>
    if s.done then .ok (s, b)
    else if h : s.index < blob.length then
      match table (blob[s.index] &&& BIND_OPCODE_MASK) with
      | none => dispatchLoop fuel blob table {s with index := s.index + 1} b
      | some f =>
        match f {s with index := s.index + 1} b
            (blob[s.index] &&& BIND_IMMEDIATE_MASK) blob with
        | .error e => .error e
        | .ok (s2, b2) => dispatchLoop fuel blob table s2 b2
    else .ok (s, b)

/-- `BindingHelper._do_bind_generic` (binding.py lines 164-189): re-derive
`seg_end_address` from the currently selected segment, then run the
dispatch loop over the blob. -/
def do_bind_generic (blob : List Nat) (b : Binary)
    (table : Nat → Option OpcodeHandler) (s : BindingState) : HandlerResult :=
  match b.segments[s.segment_index]? with
  | none => .error (.indexError, b)
  | some seg =>
      dispatchLoop (blob.length + 1) blob table
        {s with seg_end_address := seg.vaddr + seg.memsize} b

/-- `BindingHelper.do_normal_bind` (binding.py lines 94-124): skip a
`None` blob, seed the state's `seg_end_address` from segment 0 (a missing
segment 0 is a Python `IndexError`), and run the generic dispatcher with
the normal handler table. -/
def do_normal_bind (binary : Binary) (blob : Option (List Nat)) :
    Except (BindErr × Binary) Binary :=
  match blob with
  | none => .ok binary
  | some blob =>
    match binary.segments[0]? with
    | none => .error (.indexError, binary)
    | some seg =>
      let s := {initBindingState binary.is64 with
                seg_end_address := seg.vaddr + seg.memsize}
      match do_bind_generic blob binary normalOpcodeTable s with
      | .error e => .error e
      | .ok (_, b1) => .ok b1

/-- The per-record re-initialisation of `do_lazy_bind` (binding.py lines
140-149): every register except `index` is reset to its initial value,
with `binding_type` set to the lazy default 1. -/
def resetLazyState (s : BindingState) : BindingState :=
  { s with
    binding_type := 1,
    address := 0,
    sym_name := [],
    sym_flags := 0,
    lib_ord := 0,
    done := false,
    addend := 0,
    segment_index := 0,
    seg_end_address := 0 }

/-- The record loop of `do_lazy_bind` (binding.py lines 139-160): while
bytes remain, reset the state and run the generic dispatcher with the lazy
handler table. -/
def lazyRecordLoop (fuel : Nat) (blob : List Nat) (b : Binary)
    (s : BindingState) : Except (BindErr × Binary) Binary :=
  match fuel with
  | 0 => .error (.fuelOut, b)
  | fuel + 1 =>
    if s.index < blob.length then
      match do_bind_generic blob b lazyOpcodeTable (resetLazyState s) with
      | .error e => .error e
      | .ok (s1, b1) => lazyRecordLoop fuel blob b1 s1
    else .ok b

/-- `BindingHelper.do_lazy_bind` (binding.py lines 126-162). -/
def do_lazy_bind (binary : Binary) (blob : Option (List Nat)) :
    Except (BindErr × Binary) Binary :=
  match blob with
  | none => .ok binary
  | some blob =>
      lazyRecordLoop (blob.length + 1) blob binary (initBindingState binary.is64)

/-- The real Python exceptions: every error the interpreter can raise. -/
def realErr (e : BindErr) : Prop :=
  e = .invalidBinary ∨ e = .indexError ∨ e = .structError

/-- Binary carried by a handler result, in both the normal and the
exceptional branch (Python mutates the binary in place). -/
def outBinary (r : HandlerResult) : Binary :=
  match r with
  | .ok (_, b) => b
  | .error (_, b) => b

/-- Whether a driver result is a normal return. -/
def okOf (r : Except (BindErr × Binary) Binary) : Bool :=
  match r with
  | .ok _ => true
  | .error _ => false

/-- The exception of a driver result, if any. -/
def bindErrOf (r : Except (BindErr × Binary) Binary) : Option BindErr :=
  match r with
  | .ok _ => none
  | .error (e, _) => some e

/-- The logged store addresses (pre-translation) of a successful driver
result. -/
def storeLvasOf (r : Except (BindErr × Binary) Binary) : Option (List Nat) :=
  match r with
  | .ok b => some (b.stores.map StoreEvent.lva)
  | .error _ => none

/-- The `address` register of a successful handler result. -/
def stateAddrOf (r : HandlerResult) : Option Nat :=
  match r with
  | .ok (s, _) => some s.address
  | .error _ => none

/-- `add_address_ov` in closed form: only the `address` register changes. -/
theorem add_address_ov_eq (s : BindingState) (a d : Nat) :
    s.add_address_ov a d =
      {s with address := if a + d > s.wraparound then a + d - s.wraparound
                         else a + d} := by
  unfold BindingState.add_address_ov
  by_cases h : a + d > s.wraparound <;> simp [h]

/-- `add_address_ov` leaves the cursor unchanged. -/
theorem add_address_ov_index (s : BindingState) (a d : Nat) :
    (s.add_address_ov a d).index = s.index := by
  rw [add_address_ov_eq]

/-- `add_address_ov` leaves `seg_end_address` unchanged. -/
theorem add_address_ov_seg_end (s : BindingState) (a d : Nat) :
    (s.add_address_ov a d).seg_end_address = s.seg_end_address := by
  rw [add_address_ov_eq]

/-- `add_address_ov` agrees with addition modulo `2 ^ 64` whenever the raw
sum is below `2 ^ 65` and differs from exactly `2 ^ 64`. -/
theorem add_address_ov_mod (s : BindingState) (a d : Nat)
    (hw : s.wraparound = 2 ^ 64) (hne : a + d ≠ 2 ^ 64)
    (hlt : a + d < 2 ^ 65) :
    (s.add_address_ov a d).address = (a + d) % 2 ^ 64 := by
  rw [add_address_ov_eq, hw]
  by_cases h : a + d > 2 ^ 64
  · simp only [h, if_true]
    omega
  · simp only [h, if_false]
    omega

/-- The scan of a symbol name never moves the cursor backwards. -/
theorem scanSymbolLoop_le (l : List Nat) :
    ∀ index acc nm stop, scanSymbolLoop l index acc = .ok (nm, stop) →
      index ≤ stop := by
  induction l with
  | nil =>
      intro index acc nm stop h
      cases h
  | cons c rest ih =>
      intro index acc nm stop h
      rw [scanSymbolLoop] at h
      split at h
      · have := ih (index + 1) _ nm stop h
        omega
      · injection h with h
        injection h with h1 h2
        omega

/-- `scanSymbolName` never moves the cursor backwards. -/
theorem scanSymbolName_le (blob : List Nat) (index : Nat) (acc : List Nat) :
    ∀ nm stop, scanSymbolName blob index acc = .ok (nm, stop) → index ≤ stop := by
  intro nm stop h
  exact scanSymbolLoop_le (blob.drop index) index acc nm stop h

/-- The symbol-name scan loop can only fail with a Python `IndexError`. -/
theorem scanSymbolLoop_err (l : List Nat) :
    ∀ index acc e, scanSymbolLoop l index acc = .error e → e = .indexError := by
  induction l with
  | nil =>
      intro index acc e h
      injection h with h
      exact h.symm
  | cons c rest ih =>
      intro index acc e h
      rw [scanSymbolLoop] at h
      split at h
      · exact ih (index + 1) _ e h
      · cases h

/-- `scanSymbolName` can only fail with a Python `IndexError`. -/
theorem scanSymbolName_err (blob : List Nat) (index : Nat) (acc : List Nat) :
    ∀ e, scanSymbolName blob index acc = .error e → e = .indexError := by
  intro e h
  exact scanSymbolLoop_err (blob.drop index) index acc e h

/-- `structPack` can only fail with a Python `struct.error`. -/
theorem structPack_err (be : Bool) (w : Nat) (v : Int) :
    ∀ e, structPack be w v = .error e → e = .structError := by
  intro e h
  unfold structPack at h
  split at h
  · cases h
  · injection h with h
    exact h.symm

/-- `structPack` succeeds exactly on values representable in `8 * w`
unsigned bits. -/
theorem structPack_ok (be : Bool) (w : Nat) (v : Int)
    (h : 0 ≤ v ∧ v < (2 : Int) ^ (8 * w)) :
    structPack be w v =
      .ok (if be then (leBytes w v.toNat).reverse else leBytes w v.toNat) := by
  unfold structPack
  rw [if_pos h]

/-- `Binary.store` appends exactly one store event. -/
theorem store_stores (b : Binary) (l : Nat) (d : List Nat) :
    (b.store l d).stores = b.stores ++ [⟨l, b.lva_to_rva l, d⟩] := rfl

/-- `Binary.appendXref` does not touch the store log. -/
theorem appendXref_stores (b : Binary) (i l : Nat) :
    (b.appendXref i l).stores = b.stores := by
  unfold Binary.appendXref
  split <;> rfl

/-- `Binary.appendXref` does not touch the segments. -/
theorem appendXref_segments (b : Binary) (i l : Nat) :
    (b.appendXref i l).segments = b.segments := by
  unfold Binary.appendXref
  split <;> rfl

/-- Every index returned by `symbolMatches` is in range. -/
theorem symbolMatches_lt (s : BindingState) (b : Binary) :
    ∀ i ∈ symbolMatches s b, i < b.symbols.length := by
  intro i hi
  unfold symbolMatches at hi
  have := List.mem_filter.mp hi
  exact List.mem_range.mp this.1

/-- Complete case analysis of the lookup phase: a unique match is used as
is, no match appends a placeholder (and the result index points at it),
more than one match is the invalid-binary error with the binary
untouched. -/
theorem resolveSymbol_cases (s : BindingState) (b : Binary) :
    (∃ i, symbolMatches s b = [i] ∧ resolveSymbol s b = .ok (b, i)) ∨
    (symbolMatches s b = [] ∧
      resolveSymbol s b = .ok ({ b with
          symbols := b.symbols ++ [BindingSymbol s.sym_name s.lib_ord],
          ordered_symbols := b.ordered_symbols ++ [b.symbols.length] },
        b.symbols.length)) ∨
    (1 < (symbolMatches s b).length ∧
      resolveSymbol s b = .error (.invalidBinary, b)) := by
  rcases hm : symbolMatches s b with _ | ⟨i, _ | ⟨j, rest⟩⟩
  · right; left
    refine ⟨rfl, ?_⟩
    unfold resolveSymbol
    rw [hm]
  · left
    refine ⟨i, rfl, ?_⟩
    unfold resolveSymbol
    rw [hm]
  · right; right
    refine ⟨by simp [hm], ?_⟩
    unfold resolveSymbol
    rw [hm]

/-- With a resolved symbol in hand, a successful fixup appends exactly one
store event at an address no larger than the state's `address` register. -/
theorem dbh_aux_ok (s : BindingState) (b b1 b' : Binary) (idx : Nat)
    (hres : resolveSymbol s b = .ok (b1, idx))
    (h : default_binding_handler s b = .ok b') :
    ∃ ev : StoreEvent, b'.stores = b1.stores ++ [ev] ∧ ev.lva ≤ s.address := by
  simp only [default_binding_handler, hres] at h
  rcases hsym : b1.symbols[idx]? with _ | sym
  · simp only [hsym] at h
    cases h
  · simp only [hsym] at h
    by_cases hbt1 : s.binding_type = 1
    · rw [if_pos hbt1] at h
      split at h
      · cases h
      case _ data hpack =>
        injection h with h
        refine ⟨⟨s.address, b1.lva_to_rva s.address, data⟩, ?_, le_refl _⟩
        rw [← h, appendXref_stores, store_stores]
    · rw [if_neg hbt1] at h
      by_cases hbt2 : s.binding_type = 2
      · rw [if_pos hbt2] at h
        split at h
        · cases h
        case _ data hpack =>
          injection h with h
          refine ⟨⟨s.address % 2 ^ 32, b1.lva_to_rva (s.address % 2 ^ 32), data⟩,
            ?_, Nat.mod_le _ _⟩
          rw [← h, appendXref_stores, store_stores]
      · rw [if_neg hbt2] at h
        by_cases hbt3 : s.binding_type = 3
        · rw [if_pos hbt3] at h
          split at h
          · cases h
          case _ data hpack =>
            injection h with h
            refine ⟨⟨s.address % 2 ^ 32, b1.lva_to_rva (s.address % 2 ^ 32), data⟩,
              ?_, Nat.mod_le _ _⟩
            rw [← h, appendXref_stores, store_stores]
        · rw [if_neg hbt3] at h
          cases h

/-- With a resolved symbol in hand, a failing fixup leaves the store log
untouched and raises a real Python exception. -/
theorem dbh_aux_err (s : BindingState) (b b1 : Binary) (idx : Nat)
    (e : BindErr) (b' : Binary)
    (hres : resolveSymbol s b = .ok (b1, idx))
    (h : default_binding_handler s b = .error (e, b')) :
    b'.stores = b1.stores ∧ realErr e := by
  simp only [default_binding_handler, hres] at h
  rcases hsym : b1.symbols[idx]? with _ | sym
  · simp only [hsym] at h
    injection h with h
    injection h with ha hb
    rw [← ha, ← hb]
    exact ⟨rfl, Or.inr (Or.inl rfl)⟩
  · simp only [hsym] at h
    by_cases hbt1 : s.binding_type = 1
    · rw [if_pos hbt1] at h
      split at h
      case _ e1 hpack =>
        injection h with h
        injection h with ha hb
        rw [← ha, ← hb]
        exact ⟨rfl, Or.inr (Or.inr (structPack_err _ _ _ _ hpack))⟩
      · cases h
    · rw [if_neg hbt1] at h
      by_cases hbt2 : s.binding_type = 2
      · rw [if_pos hbt2] at h
        split at h
        case _ e1 hpack =>
          injection h with h
          injection h with ha hb
          rw [← ha, ← hb]
          exact ⟨rfl, Or.inr (Or.inr (structPack_err _ _ _ _ hpack))⟩
        · cases h
      · rw [if_neg hbt2] at h
        by_cases hbt3 : s.binding_type = 3
        · rw [if_pos hbt3] at h
          split at h
          case _ e1 hpack =>
            injection h with h
            injection h with ha hb
            rw [← ha, ← hb]
            exact ⟨rfl, Or.inr (Or.inr (structPack_err _ _ _ _ hpack))⟩
          · cases h
        · rw [if_neg hbt3] at h
          injection h with h
          injection h with ha hb
          rw [← ha, ← hb]
          exact ⟨rfl, Or.inl rfl⟩

/-- The store log of the binary returned by the lookup phase is that of its
input. -/
theorem resolveSymbol_ok_stores (s : BindingState) (b b1 : Binary) (idx : Nat)
    (hres : resolveSymbol s b = .ok (b1, idx)) : b1.stores = b.stores := by
  rcases resolveSymbol_cases s b with ⟨i, _, hr⟩ | ⟨_, hr⟩ | ⟨_, hr⟩ <;>
    rw [hr] at hres <;> first
    | (injection hres with hres; injection hres with h1 h2; rw [← h1])
    | cases hres

/-- A successful fixup appends exactly one store event, at an address no
larger than the state's `address` register (types 2 and 3 truncate the
location modulo `2 ^ 32`). -/
theorem dbh_ok_stores (s : BindingState) (b b' : Binary)
    (h : default_binding_handler s b = .ok b') :
    ∃ ev : StoreEvent, b'.stores = b.stores ++ [ev] ∧ ev.lva ≤ s.address := by
  rcases hr : resolveSymbol s b with e1 | ⟨b1, idx⟩
  · simp only [default_binding_handler, hr] at h
    cases h
  · obtain ⟨ev, hev, hlva⟩ := dbh_aux_ok s b b1 b' idx hr h
    exact ⟨ev, by rw [hev, resolveSymbol_ok_stores s b b1 idx hr], hlva⟩

/-- A failing fixup leaves the store log untouched and raises one of the
real Python exceptions. -/
theorem dbh_err_stores (s : BindingState) (b : Binary) (e : BindErr) (b' : Binary)
    (h : default_binding_handler s b = .error (e, b')) :
    b'.stores = b.stores ∧ realErr e := by
  rcases hr : resolveSymbol s b with e1 | ⟨b1, idx⟩
  · simp only [default_binding_handler, hr] at h
    rcases resolveSymbol_cases s b with ⟨i, _, hcase⟩ | ⟨_, hcase⟩ | ⟨_, hcase⟩ <;>
      rw [hcase] at hr
    · cases hr
    · cases hr
    · injection hr with hr
      rw [← hr] at h
      injection h with h
      injection h with ha hb
      rw [← ha, ← hb]
      exact ⟨rfl, Or.inl rfl⟩
  · obtain ⟨hst, hre⟩ := dbh_aux_err s b b1 idx e b' hr h
    exact ⟨by rw [hst, resolveSymbol_ok_stores s b b1 idx hr], hre⟩

/-- A real exception is not the fuel artifact. -/
theorem realErr_not_fuelOut {e : BindErr} (h : realErr e) : ¬e = .fuelOut := by
  rcases h with h | h | h <;> rw [h] <;> intro hc <;> cases hc

/-- The bind loop of `DO_BIND_ULEB_TIMES_SKIPPING_ULEB` preserves the
cursor and the segment bound. -/
theorem doBindTimesLoop_ok (count skip : Nat) :
    ∀ s b s' b', doBindTimesLoop count skip s b = .ok (s', b') →
      s'.index = s.index ∧ s'.seg_end_address = s.seg_end_address := by
  induction count with
  | zero =>
      intro s b s' b' h
      simp only [doBindTimesLoop] at h
      injection h with h
      injection h with h1 h2
      rw [← h1]
      exact ⟨rfl, rfl⟩
  | succ c ih =>
      intro s b s' b' h
      simp only [doBindTimesLoop] at h
      split at h
      · cases h
      · split at h
        · cases h
        case _ b2 hdbh =>
          obtain ⟨h1, h2⟩ := ih _ _ _ _ h
          rw [h1, h2, add_address_ov_index, add_address_ov_seg_end]
          exact ⟨rfl, rfl⟩

/-- The bind loop can only fail with a real exception. -/
theorem doBindTimesLoop_err (count skip : Nat) :
    ∀ s b e b', doBindTimesLoop count skip s b = .error (e, b') → realErr e := by
  induction count with
  | zero =>
      intro s b e b' h
      simp only [doBindTimesLoop] at h
      cases h
  | succ c ih =>
      intro s b e b' h
      simp only [doBindTimesLoop] at h
      split at h
      · injection h with h
        injection h with h1 h2
        rw [← h1]
        exact Or.inl rfl
      · split at h
        case _ e1 hdbh =>
          injection h with h
          rw [h] at hdbh
          exact (dbh_err_stores _ _ _ _ hdbh).2
        case _ b2 hdbh =>
          exact ih _ _ _ _ h

/-- Every store performed by the bind loop lands strictly below the
state's segment bound. -/
theorem doBindTimesLoop_stores (count skip : Nat) :
    ∀ s b, ∃ L, (outBinary (doBindTimesLoop count skip s b)).stores =
        b.stores ++ L ∧ ∀ ev ∈ L, ev.lva < s.seg_end_address := by
  induction count with
  | zero =>
      intro s b
      exact ⟨[], by simp [doBindTimesLoop, outBinary], by simp⟩
  | succ c ih =>
      intro s b
      rw [doBindTimesLoop]
      split
      · exact ⟨[], by simp [outBinary], by simp⟩
      case _ hbound =>
        rcases hdbh : default_binding_handler s b with ⟨e1, b2⟩ | b2
        · refine ⟨[], ?_, by simp⟩
          simp only [outBinary]
          rw [(dbh_err_stores _ _ _ _ hdbh).1, List.append_nil]
        · obtain ⟨ev, hev, hlva⟩ := dbh_ok_stores _ _ _ hdbh
          obtain ⟨L2, hL2, hL2b⟩ := ih (s.add_address_ov s.address (skip + s.sizeof_intptr_t)) b2
          refine ⟨ev :: L2, ?_, ?_⟩
          · rw [hL2, hev]
            simp
          · intro ev' hev'
            rcases List.mem_cons.mp hev' with h | h
            · rw [h]
              omega
            · have := hL2b ev' h
              rw [add_address_ov_seg_end] at this
              exact this

/-- A handler is tame when it never moves the cursor backwards on success
and only raises real exceptions. -/
def handlerTame (f : OpcodeHandler) : Prop :=
  ∀ s b i blob,
    (∀ s' b', f s b i blob = .ok (s', b') → s.index ≤ s'.index) ∧
    (∀ e b', f s b i blob = .error (e, b') → realErr e)

/-- `n_opcode_done` is tame. -/
theorem tame_done : handlerTame n_opcode_done := by
  intro s b i blob
  constructor
  · intro s' b' h
    injection h with h
    injection h with h1 h2
    rw [← h1]
  · intro e b' h
    cases h

/-- `n_opcode_set_dylib_ordinal_imm` is tame. -/
theorem tame_ordinal_imm : handlerTame n_opcode_set_dylib_ordinal_imm := by
  intro s b i blob
  constructor
  · intro s' b' h
    injection h with h
    injection h with h1 h2
    rw [← h1]
  · intro e b' h
    cases h

/-- `n_opcode_set_dylib_ordinal_uleb` is tame. -/
theorem tame_ordinal_uleb : handlerTame n_opcode_set_dylib_ordinal_uleb := by
  intro s b i blob
  constructor
  · intro s' b' h
    injection h with h
    injection h with h1 h2
    rw [← h1]
    exact Nat.le_add_right _ _
  · intro e b' h
    cases h

/-- `n_opcode_set_dylib_special_imm` is tame. -/
theorem tame_special_imm : handlerTame n_opcode_set_dylib_special_imm := by
  intro s b i blob
  constructor
  · intro s' b' h
    unfold n_opcode_set_dylib_special_imm at h
    split at h <;>
      (injection h with h; injection h with h1 h2; rw [← h1])
  · intro e b' h
    unfold n_opcode_set_dylib_special_imm at h
    split at h <;> cases h

/-- `n_opcode_set_trailing_flags_imm` is tame. -/
theorem tame_trailing_flags : handlerTame n_opcode_set_trailing_flags_imm := by
  intro s b i blob
  constructor
  · intro s' b' h
    unfold n_opcode_set_trailing_flags_imm at h
    split at h
    · cases h
    case _ name stop hscan =>
      injection h with h
      injection h with h1 h2
      rw [← h1]
      have := scanSymbolName_le blob s.index [] name stop hscan
      simp only []
      omega
  · intro e b' h
    unfold n_opcode_set_trailing_flags_imm at h
    split at h
    case _ e1 hscan =>
      injection h with h
      injection h with h1 h2
      rw [← h1, scanSymbolName_err blob s.index [] e1 hscan]
      exact Or.inr (Or.inl rfl)
    · cases h

/-- `n_opcode_set_type_imm` is tame. -/
theorem tame_type_imm : handlerTame n_opcode_set_type_imm := by
  intro s b i blob
  constructor
  · intro s' b' h
    injection h with h
    injection h with h1 h2
    rw [← h1]
  · intro e b' h
    cases h

/-- `n_opcode_set_addend_sleb` is tame. -/
theorem tame_addend_sleb : handlerTame n_opcode_set_addend_sleb := by
  intro s b i blob
  constructor
  · intro s' b' h
    injection h with h
    injection h with h1 h2
    rw [← h1]
    exact Nat.le_add_right _ _
  · intro e b' h
    cases h

/-- `n_opcode_set_segment_and_offset_uleb` is tame. -/
theorem tame_n_set_segment : handlerTame n_opcode_set_segment_and_offset_uleb := by
  intro s b i blob
  constructor
  · intro s' b' h
    simp only [n_opcode_set_segment_and_offset_uleb] at h
    split at h
    · cases h
    case _ seg hseg =>
      injection h with h
      injection h with h1 h2
      rw [← h1, add_address_ov_eq]
      exact Nat.le_add_right _ _
  · intro e b' h
    simp only [n_opcode_set_segment_and_offset_uleb] at h
    split at h
    · injection h with h
      injection h with h1 h2
      rw [← h1]
      exact Or.inr (Or.inl rfl)
    · cases h

/-- `l_opcode_set_segment_and_offset_uleb` is tame. -/
theorem tame_l_set_segment : handlerTame l_opcode_set_segment_and_offset_uleb := by
  intro s b i blob
  constructor
  · intro s' b' h
    simp only [l_opcode_set_segment_and_offset_uleb] at h
    split at h
    · cases h
    case _ seg hseg =>
      injection h with h
      injection h with h1 h2
      rw [← h1, add_address_ov_eq]
      exact Nat.le_add_right _ _
  · intro e b' h
    simp only [l_opcode_set_segment_and_offset_uleb] at h
    split at h
    · injection h with h
      injection h with h1 h2
      rw [← h1]
      exact Or.inr (Or.inl rfl)
    · cases h

/-- `n_opcode_add_addr_uleb` is tame. -/
theorem tame_add_addr_uleb : handlerTame n_opcode_add_addr_uleb := by
  intro s b i blob
  constructor
  · intro s' b' h
    injection h with h
    injection h with h1 h2
    rw [← h1, add_address_ov_eq]
    exact Nat.le_add_right _ _
  · intro e b' h
    cases h

/-- `n_opcode_do_bind` is tame. -/
theorem tame_n_do_bind : handlerTame n_opcode_do_bind := by
  intro s b i blob
  constructor
  · intro s' b' h
    unfold n_opcode_do_bind at h
    split at h
    · cases h
    · split at h
      · cases h
      case _ b2 hdbh =>
        injection h with h
        injection h with h1 h2
        rw [← h1, add_address_ov_index]
  · intro e b' h
    unfold n_opcode_do_bind at h
    split at h
    · injection h with h
      injection h with h1 h2
      rw [← h1]
      exact Or.inl rfl
    · split at h
      case _ e1 hdbh =>
        injection h with h
        rw [h] at hdbh
        exact (dbh_err_stores _ _ _ _ hdbh).2
      · cases h

/-- `l_opcode_do_bind` is tame. -/
theorem tame_l_do_bind : handlerTame l_opcode_do_bind := by
  intro s b i blob
  constructor
  · intro s' b' h
    unfold l_opcode_do_bind at h
    split at h
    · cases h
    case _ b2 hdbh =>
      injection h with h
      injection h with h1 h2
      rw [← h1]
  · intro e b' h
    unfold l_opcode_do_bind at h
    split at h
    case _ e1 hdbh =>
      injection h with h
      rw [h] at hdbh
      exact (dbh_err_stores _ _ _ _ hdbh).2
    · cases h

/-- `n_opcode_do_bind_add_addr_uleb` is tame. -/
theorem tame_do_bind_add_addr_uleb : handlerTame n_opcode_do_bind_add_addr_uleb := by
  intro s b i blob
  constructor
  · intro s' b' h
    simp only [n_opcode_do_bind_add_addr_uleb] at h
    split at h
    · cases h
    · split at h
      · cases h
      case _ b2 hdbh =>
        injection h with h
        injection h with h1 h2
        rw [← h1, add_address_ov_eq]
        exact Nat.le_add_right _ _
  · intro e b' h
    simp only [n_opcode_do_bind_add_addr_uleb] at h
    split at h
    · injection h with h
      injection h with h1 h2
      rw [← h1]
      exact Or.inl rfl
    · split at h
      case _ e1 hdbh =>
        injection h with h
        rw [h] at hdbh
        exact (dbh_err_stores _ _ _ _ hdbh).2
      · cases h

/-- `n_opcode_do_bind_add_addr_imm_scaled` is tame. -/
theorem tame_do_bind_imm_scaled : handlerTame n_opcode_do_bind_add_addr_imm_scaled := by
  intro s b i blob
  constructor
  · intro s' b' h
    unfold n_opcode_do_bind_add_addr_imm_scaled at h
    split at h
    · cases h
    · split at h
      · cases h
      case _ b2 hdbh =>
        injection h with h
        injection h with h1 h2
        rw [← h1, add_address_ov_index]
  · intro e b' h
    unfold n_opcode_do_bind_add_addr_imm_scaled at h
    split at h
    · injection h with h
      injection h with h1 h2
      rw [← h1]
      exact Or.inl rfl
    · split at h
      case _ e1 hdbh =>
        injection h with h
        rw [h] at hdbh
        exact (dbh_err_stores _ _ _ _ hdbh).2
      · cases h

/-- `n_opcode_do_bind_uleb_times_skipping_uleb` is tame. -/
theorem tame_do_bind_times : handlerTame n_opcode_do_bind_uleb_times_skipping_uleb := by
  intro s b i blob
  constructor
  · intro s' b' h
    simp only [n_opcode_do_bind_uleb_times_skipping_uleb] at h
    have := (doBindTimesLoop_ok _ _ _ _ _ _ h).1
    rw [this]
    exact (Nat.le_add_right _ _).trans (Nat.le_add_right _ _)
  · intro e b' h
    simp only [n_opcode_do_bind_uleb_times_skipping_uleb] at h
    exact doBindTimesLoop_err _ _ _ _ _ _ h

/-- Every handler reachable through the normal table is tame. -/
theorem normalTable_tame : ∀ op f, normalOpcodeTable op = some f → handlerTame f := by
  intro op f h
  unfold normalOpcodeTable at h
  by_cases h0 : op = BIND_OPCODE_DONE
  · rw [if_pos h0] at h
    injection h with h
    rw [← h]
    exact tame_done
  · rw [if_neg h0] at h
    by_cases h1 : op = BIND_OPCODE_SET_DYLIB_ORDINAL_IMM
    · rw [if_pos h1] at h
      injection h with h
      rw [← h]
      exact tame_ordinal_imm
    · rw [if_neg h1] at h
      by_cases h2 : op = BIND_OPCODE_SET_DYLIB_ORDINAL_ULEB
      · rw [if_pos h2] at h
        injection h with h
        rw [← h]
        exact tame_ordinal_uleb
      · rw [if_neg h2] at h
        by_cases h3 : op = BIND_OPCODE_SET_DYLIB_SPECIAL_IMM
        · rw [if_pos h3] at h
          injection h with h
          rw [← h]
          exact tame_special_imm
        · rw [if_neg h3] at h
          by_cases h4 : op = BIND_OPCODE_SET_SYMBOL_TRAILING_FLAGS_IMM
          · rw [if_pos h4] at h
            injection h with h
            rw [← h]
            exact tame_trailing_flags
          · rw [if_neg h4] at h
            by_cases h5 : op = BIND_OPCODE_SET_TYPE_IMM
            · rw [if_pos h5] at h
              injection h with h
              rw [← h]
              exact tame_type_imm
            · rw [if_neg h5] at h
              by_cases h6 : op = BIND_OPCODE_SET_ADDEND_SLEB
              · rw [if_pos h6] at h
                injection h with h
                rw [← h]
                exact tame_addend_sleb
              · rw [if_neg h6] at h
                by_cases h7 : op = BIND_OPCODE_SET_SEGMENT_AND_OFFSET_ULEB
                · rw [if_pos h7] at h
                  injection h with h
                  rw [← h]
                  exact tame_n_set_segment
                · rw [if_neg h7] at h
                  by_cases h8 : op = BIND_OPCODE_ADD_ADDR_ULEB
                  · rw [if_pos h8] at h
                    injection h with h
                    rw [← h]
                    exact tame_add_addr_uleb
                  · rw [if_neg h8] at h
                    by_cases h9 : op = BIND_OPCODE_DO_BIND
                    · rw [if_pos h9] at h
                      injection h with h
                      rw [← h]
                      exact tame_n_do_bind
                    · rw [if_neg h9] at h
                      by_cases h10 : op = BIND_OPCODE_DO_BIND_ADD_ADDR_ULEB
                      · rw [if_pos h10] at h
                        injection h with h
                        rw [← h]
                        exact tame_do_bind_add_addr_uleb
                      · rw [if_neg h10] at h
                        by_cases h11 : op = BIND_OPCODE_DO_BIND_ADD_ADDR_IMM_SCALED
                        · rw [if_pos h11] at h
                          injection h with h
                          rw [← h]
                          exact tame_do_bind_imm_scaled
                        · rw [if_neg h11] at h
                          by_cases h12 : op = BIND_OPCODE_DO_BIND_ULEB_TIMES_SKIPPING_ULEB
                          · rw [if_pos h12] at h
                            injection h with h
                            rw [← h]
                            exact tame_do_bind_times
                          · rw [if_neg h12] at h
                            cases h

/-- Every handler reachable through the lazy table is tame. -/
theorem lazyTable_tame : ∀ op f, lazyOpcodeTable op = some f → handlerTame f := by
  intro op f h
  unfold lazyOpcodeTable at h
  by_cases h0 : op = BIND_OPCODE_DONE
  · rw [if_pos h0] at h
    injection h with h
    rw [← h]
    exact tame_done
  · rw [if_neg h0] at h
    by_cases h1 : op = BIND_OPCODE_SET_DYLIB_ORDINAL_IMM
    · rw [if_pos h1] at h
      injection h with h
      rw [← h]
      exact tame_ordinal_imm
    · rw [if_neg h1] at h
      by_cases h2 : op = BIND_OPCODE_SET_DYLIB_ORDINAL_ULEB
      · rw [if_pos h2] at h
        injection h with h
        rw [← h]
        exact tame_ordinal_uleb
      · rw [if_neg h2] at h
        by_cases h3 : op = BIND_OPCODE_SET_DYLIB_SPECIAL_IMM
        · rw [if_pos h3] at h
          injection h with h
          rw [← h]
          exact tame_special_imm
        · rw [if_neg h3] at h
          by_cases h4 : op = BIND_OPCODE_SET_SYMBOL_TRAILING_FLAGS_IMM
          · rw [if_pos h4] at h
            injection h with h
            rw [← h]
            exact tame_trailing_flags
          · rw [if_neg h4] at h
            by_cases h5 : op = BIND_OPCODE_SET_TYPE_IMM
            · rw [if_pos h5] at h
              injection h with h
              rw [← h]
              exact tame_type_imm
            · rw [if_neg h5] at h
              by_cases h6 : op = BIND_OPCODE_SET_SEGMENT_AND_OFFSET_ULEB
              · rw [if_pos h6] at h
                injection h with h
                rw [← h]
                exact tame_l_set_segment
              · rw [if_neg h6] at h
                by_cases h7 : op = BIND_OPCODE_DO_BIND
                · rw [if_pos h7] at h
                  injection h with h
                  rw [← h]
                  exact tame_l_do_bind
                · rw [if_neg h7] at h
                  cases h

/-- The dispatch loop never moves the cursor backwards. -/
theorem dispatchLoop_index_mono (table : Nat → Option OpcodeHandler)
    (htab : ∀ op f, table op = some f → handlerTame f) :
    ∀ fuel blob s b s' b', dispatchLoop fuel blob table s b = .ok (s', b') →
      s.index ≤ s'.index := by
  intro fuel
  induction fuel with
  | zero =>
      intro blob s b s' b' h
      cases h
  | succ fuel ih =>
      intro blob s b s' b' h
      rw [dispatchLoop] at h
      split at h
      · injection h with h
        injection h with h1 h2
        rw [← h1]
      · split at h
        · split at h
          case _ hop =>
            have h2 : s.index + 1 ≤ s'.index := ih blob _ _ _ _ h
            omega
          case _ f hop =>
            split at h
            · cases h
            case _ s2 b2 hstep =>
              have h1 : s.index + 1 ≤ s2.index := (htab _ _ hop _ _ _ _).1 _ _ hstep
              have h2 := ih blob _ _ _ _ h
              omega
        · injection h with h
          injection h with h1 h2
          rw [← h1]

/-- With fuel exceeding the remaining blob bytes, the dispatch loop never
exhausts its fuel: every failure is a real exception. -/
theorem dispatchLoop_err_real (table : Nat → Option OpcodeHandler)
    (htab : ∀ op f, table op = some f → handlerTame f) :
    ∀ fuel blob (s : BindingState) b e b',
      blob.length - s.index < fuel →
      dispatchLoop fuel blob table s b = .error (e, b') → realErr e := by
  intro fuel
  induction fuel with
  | zero =>
      intro blob s b e b' hfuel h
      omega
  | succ fuel ih =>
      intro blob s b e b' hfuel h
      rw [dispatchLoop] at h
      split at h
      · cases h
      · split at h
        case _ hidx =>
          split at h
          case _ hop =>
            refine ih blob _ _ _ _ ?_ h
            show blob.length - (s.index + 1) < fuel
            omega
          case _ f hop =>
            split at h
            case _ e1 hstep =>
              injection h with h
              rw [h] at hstep
              exact (htab _ _ hop _ _ _ _).2 _ _ hstep
            case _ s2 b2 hstep =>
              have h1 : s.index + 1 ≤ s2.index := (htab _ _ hop _ _ _ _).1 _ _ hstep
              refine ih blob _ _ _ _ ?_ h
              omega
        · cases h

/-- When the dispatch loop returns normally, the final state is done or has
consumed the whole blob: the loop exits only on `done` or exhaustion. -/
theorem dispatchLoop_ok_done (table : Nat → Option OpcodeHandler) :
    ∀ fuel blob (s : BindingState) b s' b',
      dispatchLoop fuel blob table s b = .ok (s', b') →
      s'.done = true ∨ blob.length ≤ s'.index := by
  intro fuel
  induction fuel with
  | zero =>
      intro blob s b s' b' h
      cases h
  | succ fuel ih =>
      intro blob s b s' b' h
      rw [dispatchLoop] at h
      split at h
      case _ hdone =>
        injection h with h
        injection h with h1 h2
        rw [← h1]
        exact Or.inl hdone
      · split at h
        case _ hidx =>
          split at h
          · exact ih blob _ _ _ _ h
          · split at h
            · cases h
            · exact ih blob _ _ _ _ h
        case _ hidx =>
          injection h with h
          injection h with h1 h2
          rw [← h1]
          right
          omega

/-- A failing `do_bind_generic` raises a real exception (never the fuel
artifact): the seeded fuel `blob.length + 1` always suffices. -/
theorem do_bind_generic_err_real (table : Nat → Option OpcodeHandler)
    (htab : ∀ op f, table op = some f → handlerTame f)
    (blob : List Nat) (b : Binary) (s : BindingState) (e : BindErr) (b' : Binary)
    (h : do_bind_generic blob b table s = .error (e, b')) : realErr e := by
  unfold do_bind_generic at h
  split at h
  · injection h with h
    injection h with h1 h2
    rw [← h1]
    exact Or.inr (Or.inl rfl)
  · exact dispatchLoop_err_real table htab _ blob _ b e b' (by omega) h

/-- A successful `do_bind_generic` ends done or with the blob exhausted. -/
theorem do_bind_generic_ok_done (table : Nat → Option OpcodeHandler)
    (blob : List Nat) (b : Binary) (s : BindingState) (s' : BindingState) (b' : Binary)
    (h : do_bind_generic blob b table s = .ok (s', b')) :
    s'.done = true ∨ blob.length ≤ s'.index := by
  unfold do_bind_generic at h
  split at h
  · cases h
  · exact dispatchLoop_ok_done table _ blob _ b s' b' h

/-- A dispatch loop started on a not-done state with bytes remaining
strictly advances the cursor when it returns normally. -/
theorem dispatchLoop_progress (table : Nat → Option OpcodeHandler)
    (htab : ∀ op f, table op = some f → handlerTame f)
    (fuel : Nat) (blob : List Nat) (s : BindingState) (b : Binary)
    (s' : BindingState) (b' : Binary)
    (hdone : s.done = false) (hidx : s.index < blob.length)
    (h : dispatchLoop (fuel + 1) blob table s b = .ok (s', b')) :
    s.index < s'.index := by
  rw [dispatchLoop] at h
  split at h
  case _ hd => rw [hdone] at hd; cases hd
  case _ hd =>
    split at h
    case _ hop =>
      have h2 : s.index + 1 ≤ s'.index :=
        dispatchLoop_index_mono table htab fuel blob _ b s' b' h
      omega
    case _ f hop =>
      split at h
      · cases h
      case _ s2 b2 hstep =>
        have h1 : s.index + 1 ≤ s2.index := (htab _ _ hop _ _ _ _).1 _ _ hstep
        have h2 := dispatchLoop_index_mono table htab fuel blob _ _ s' b' h
        omega

/-- `do_bind_generic` on a not-done state with bytes remaining strictly
advances the cursor when it returns normally. -/
theorem do_bind_generic_progress (table : Nat → Option OpcodeHandler)
    (htab : ∀ op f, table op = some f → handlerTame f)
    (blob : List Nat) (b : Binary) (s : BindingState) (s' : BindingState) (b' : Binary)
    (hdone : s.done = false) (hidx : s.index < blob.length)
    (h : do_bind_generic blob b table s = .ok (s', b')) :
    s.index < s'.index := by
  unfold do_bind_generic at h
  split at h
  · cases h
  case _ seg hseg =>
    exact dispatchLoop_progress table htab blob.length blob
      {s with seg_end_address := seg.vaddr + seg.memsize} b s' b' hdone hidx h

/-- The lazy record loop only fails with real exceptions when given fuel
above the remaining byte count. -/
theorem lazyRecordLoop_err_real :
    ∀ (fuel : Nat) (blob : List Nat) (b : Binary) (s : BindingState) (e : BindErr) (b' : Binary),
      blob.length - s.index < fuel →
      lazyRecordLoop fuel blob b s = .error (e, b') → realErr e := by
  intro fuel
  induction fuel with
  | zero =>
      intro blob b s e b' hfuel h
      omega
  | succ fuel ih =>
      intro blob b s e b' hfuel h
      rw [lazyRecordLoop] at h
      split at h
      case _ hidx =>
        split at h
        case _ e1 hgen =>
          injection h with h
          rw [h] at hgen
          exact do_bind_generic_err_real lazyOpcodeTable lazyTable_tame
            blob b _ e b' hgen
        case _ s1 b1 hgen =>
          have hprog : s.index < s1.index := by
            refine do_bind_generic_progress lazyOpcodeTable lazyTable_tame
              blob b (resetLazyState s) s1 b1 rfl ?_ hgen
            exact hidx
          exact ih blob b1 s1 e b' (by omega) h
      · cases h

/-- The initial binding state starts at blob offset 0. -/
theorem initBindingState_index (x : Bool) : (initBindingState x).index = 0 := rfl

/-- Outcome classification for `do_normal_bind` on a present blob: a normal
return, or one of the real Python exceptions. -/
theorem do_normal_bind_outcome (binary : Binary) (blob : List Nat) :
    (match do_normal_bind binary (some blob) with
     | .ok _ => True
     | .error (e, _) => realErr e) := by
  split
  · trivial
  case _ e b1 heq =>
    simp only [do_normal_bind] at heq
    split at heq
    · injection heq with heq
      injection heq with h1 h2
      rw [← h1]
      exact Or.inr (Or.inl rfl)
    case _ seg hseg =>
      split at heq
      case _ e1 hgen =>
        injection heq with heq
        rw [heq] at hgen
        exact do_bind_generic_err_real normalOpcodeTable normalTable_tame
          blob binary _ e b1 hgen
      · cases heq

/-- Outcome classification for `do_lazy_bind` on a present blob: a normal
return, or one of the real Python exceptions. -/
theorem do_lazy_bind_outcome (binary : Binary) (blob : List Nat) :
    (match do_lazy_bind binary (some blob) with
     | .ok _ => True
     | .error (e, _) => realErr e) := by
  split
  · trivial
  case _ e b1 heq =>
    simp only [do_lazy_bind] at heq
    refine lazyRecordLoop_err_real (blob.length + 1) blob binary
      (initBindingState binary.is64) e b1 ?_ heq
    rw [initBindingState_index]
    omega

/-- Identity address translation, used by the concrete example images. -/
def idTranslate : Nat → Nat := fun a => a

/-- A concrete 64-bit little-endian image with one segment at 0x1000 of
size 0x1000 and no symbols. -/
def exImage : Binary where
  segments := [⟨0x1000, 0x1000⟩]
  symbols := []
  ordered_symbols := []
  is64 := true
  bigEndian := false
  lva_to_rva := idTranslate
  stores := []

/-- C3 (amended): for every image and every byte blob, a binding pass has
exactly one of these outcomes: it returns normally — and the dispatch loop
only exits with the `done` flag set or the blob exhausted — or it raises
an exception, which is the invalid-binary error, an out-of-range index
error (e.g. an unterminated symbol string or an out-of-range segment
index), or a struct packing error; the fuel bound `blob.length + 1` of the
embedding is never exhausted, so no non-termination occurs. -/
theorem C3_blob_outcomes :
    (∀ (binary : Binary) (blob : List Nat),
      match do_normal_bind binary (some blob) with
      | .ok _ => True
      | .error (e, _) => realErr e) ∧
    (∀ (binary : Binary) (blob : List Nat),
      match do_lazy_bind binary (some blob) with
      | .ok _ => True
      | .error (e, _) => realErr e) ∧
    (∀ (blob : List Nat) (table : Nat → Option OpcodeHandler)
        (s : BindingState) (b : Binary) (fuel : Nat),
      match dispatchLoop fuel blob table s b with
      | .ok (s', _) => s'.done = true ∨ blob.length ≤ s'.index
      | .error _ => True) := by
  refine ⟨do_normal_bind_outcome, do_lazy_bind_outcome, ?_⟩
  intro blob table s b fuel
  split
  case _ s' b1 heq => exact dispatchLoop_ok_done table fuel blob s b s' b1 heq
  · trivial

/-- C3 counterexample: a SET_SYMBOL_TRAILING_FLAGS_IMM whose symbol string
has no NUL terminator before the end of the blob neither terminates
normally nor raises the invalid-binary error: the pass dies with a Python
`IndexError`, a fourth outcome the claim does not list. -/
theorem C3_counterexample :
    okOf (do_normal_bind exImage (some [0x40, 0x41])) = false ∧
    bindErrOf (do_normal_bind exImage (some [0x40, 0x41])) =
      some BindErr.indexError ∧
    (BindErr.indexError == BindErr.invalidBinary) = false := by
  exact ⟨rfl, rfl, rfl⟩

/-- C6: `read_uleb` and `read_sleb` are left inverses of the standard
LEB128 encoders on their whole ranges — for every natural `n` and every
integer `z`, decoding at the offset where the encoding was placed returns
the encoded value and the number of encoded bytes. -/
theorem C6_leb128_roundtrip :
    (∀ (n : Nat) (pre post : List Nat),
      read_uleb (pre ++ encode_uleb n ++ post) pre.length =
        (n, (encode_uleb n).length)) ∧
    (∀ (z : Int) (pre post : List Nat),
      read_sleb (pre ++ encode_sleb z ++ post) pre.length =
        (z, (encode_sleb z).length)) :=
  ⟨read_uleb_encode, read_sleb_encode⟩

/-- C1: the interpreter's address addition `add_address_ov` does not
compute `(a + d) mod 2^64`.  At `a = 1`, `d = 2^64 - 1` the raw sum is
exactly `2^64` and the strict comparison `tmp > wraparound` leaves the
address at `2^64` where the modulus is 0; for the ULEB-sized delta
`d = 2^65` the single subtraction leaves `2^64` as well.  This contradicts
the function's own stated intent of proper `uintptr_t` overflow. -/
theorem C1_add_address_ov_boundary :
    ((initBindingState true).add_address_ov 1 (2 ^ 64 - 1)).address = 2 ^ 64 ∧
    (1 + (2 ^ 64 - 1)) % 2 ^ 64 = 0 ∧
    ((initBindingState true).add_address_ov 0 (2 ^ 65)).address = 2 ^ 64 ∧
    (0 + 2 ^ 65) % 2 ^ 64 = 0 ∧
    ((2 ^ 64 : Nat) == 0) = false := by
  refine ⟨rfl, by norm_num, rfl, by norm_num, by norm_num⟩

/-- Stores of a normal `DO_BIND` stay below the segment bound. -/
theorem n_do_bind_stores_bound (s : BindingState) (b : Binary) (i : Nat)
    (blob : List Nat) :
    ∃ L, (outBinary (n_opcode_do_bind s b i blob)).stores = b.stores ++ L ∧
      ∀ ev ∈ L, ev.lva < s.seg_end_address := by
  unfold n_opcode_do_bind
  split
  · exact ⟨[], by simp [outBinary], by simp⟩
  case _ hbound =>
    rcases hdbh : default_binding_handler s b with ⟨e1, b2⟩ | b2
    · simp only [hdbh]
      refine ⟨[], ?_, by simp⟩
      simp only [outBinary]
      rw [(dbh_err_stores s b e1 b2 hdbh).1, List.append_nil]
    · simp only [hdbh]
      obtain ⟨ev, hev, hlva⟩ := dbh_ok_stores s b b2 hdbh
      refine ⟨[ev], ?_, ?_⟩
      · simp only [outBinary]
        exact hev
      · intro ev' h'
        rw [List.mem_singleton.mp h']
        omega

/-- Stores of `DO_BIND_ADD_ADDR_ULEB` stay below the segment bound. -/
theorem do_bind_add_addr_uleb_stores_bound (s : BindingState) (b : Binary)
    (i : Nat) (blob : List Nat) :
    ∃ L, (outBinary (n_opcode_do_bind_add_addr_uleb s b i blob)).stores =
        b.stores ++ L ∧ ∀ ev ∈ L, ev.lva < s.seg_end_address := by
  simp only [n_opcode_do_bind_add_addr_uleb]
  split
  · exact ⟨[], by simp [outBinary], by simp⟩
  case _ hbound =>
    rcases hdbh : default_binding_handler
        {s with index := s.index + (read_uleb blob s.index).2} b with ⟨e1, b2⟩ | b2
    · simp only [hdbh]
      refine ⟨[], ?_, by simp⟩
      simp only [outBinary]
      rw [(dbh_err_stores _ b e1 b2 hdbh).1, List.append_nil]
    · simp only [hdbh]
      obtain ⟨ev, hev, hlva⟩ := dbh_ok_stores _ b b2 hdbh
      refine ⟨[ev], ?_, ?_⟩
      · simp only [outBinary]
        exact hev
      · intro ev' h'
        rw [List.mem_singleton.mp h']
        have hlva' : ev.lva ≤ s.address := hlva
        omega

/-- Stores of `DO_BIND_ADD_ADDR_IMM_SCALED` stay below the segment
bound. -/
theorem do_bind_imm_scaled_stores_bound (s : BindingState) (b : Binary)
    (i : Nat) (blob : List Nat) :
    ∃ L, (outBinary (n_opcode_do_bind_add_addr_imm_scaled s b i blob)).stores =
        b.stores ++ L ∧ ∀ ev ∈ L, ev.lva < s.seg_end_address := by
  unfold n_opcode_do_bind_add_addr_imm_scaled
  split
  · exact ⟨[], by simp [outBinary], by simp⟩
  case _ hbound =>
    rcases hdbh : default_binding_handler s b with ⟨e1, b2⟩ | b2
    · simp only [hdbh]
      refine ⟨[], ?_, by simp⟩
      simp only [outBinary]
      rw [(dbh_err_stores s b e1 b2 hdbh).1, List.append_nil]
    · simp only [hdbh]
      obtain ⟨ev, hev, hlva⟩ := dbh_ok_stores s b b2 hdbh
      refine ⟨[ev], ?_, ?_⟩
      · simp only [outBinary]
        exact hev
      · intro ev' h'
        rw [List.mem_singleton.mp h']
        omega

/-- Stores of `DO_BIND_ULEB_TIMES_SKIPPING_ULEB` stay below the segment
bound. -/
theorem do_bind_times_stores_bound (s : BindingState) (b : Binary)
    (i : Nat) (blob : List Nat) :
    ∃ L, (outBinary (n_opcode_do_bind_uleb_times_skipping_uleb s b i blob)).stores =
        b.stores ++ L ∧ ∀ ev ∈ L, ev.lva < s.seg_end_address := by
  simp only [n_opcode_do_bind_uleb_times_skipping_uleb]
  exact doBindTimesLoop_stores _ _ _ b

/-- C2 (amended): for every `DO_BIND`-class opcode executed in normal
mode, every memory store it performs — including each iteration of
`DO_BIND_ULEB_TIMES_SKIPPING_ULEB` and stores preceding a mid-opcode
failure — is at an address strictly below `seg.vaddr + seg.memsize` of the
currently selected segment.  The original claim's lower bound
`seg.vaddr ≤ address` does not hold on the code; see
`C2_counterexample`. -/
theorem C2_do_bind_stores_upper_bound :
    ∀ (s : BindingState) (b : Binary) (i : Nat) (blob : List Nat) (seg : Segment),
      b.segments[s.segment_index]? = some seg →
      s.seg_end_address = seg.vaddr + seg.memsize →
      ∀ f : OpcodeHandler,
        (f = n_opcode_do_bind ∨ f = n_opcode_do_bind_add_addr_uleb ∨
         f = n_opcode_do_bind_add_addr_imm_scaled ∨
         f = n_opcode_do_bind_uleb_times_skipping_uleb) →
        ∃ L, (outBinary (f s b i blob)).stores = b.stores ++ L ∧
          ∀ ev ∈ L, ev.lva < seg.vaddr + seg.memsize := by
  intro s b i blob seg hseg hend f hf
  rw [← hend]
  rcases hf with hf | hf | hf | hf <;> rw [hf]
  · exact n_do_bind_stores_bound s b i blob
  · exact do_bind_add_addr_uleb_stores_bound s b i blob
  · exact do_bind_imm_scaled_stores_bound s b i blob
  · exact do_bind_times_stores_bound s b i blob

/-- C2 counterexample: on the example image whose only segment starts at
0x1000, the normal pass SET_TYPE_IMM(1); DO_BIND writes at address 0 —
strictly below the selected segment's `vaddr`, violating the claimed lower
bound. -/
theorem C2_counterexample :
    storeLvasOf (do_normal_bind exImage (some [0x51, 0x90])) = some [0] ∧
    exImage.segments = [⟨0x1000, 0x1000⟩] ∧ (0 : Nat) < 0x1000 :=
  ⟨rfl, rfl, by norm_num⟩

/-- A concrete state selecting segment 0 of the example image with the
correct segment bound, used to instantiate the C2 upper-bound theorem. -/
def exState : BindingState :=
  { initBindingState true with seg_end_address := 0x2000, binding_type := 1 }

/-- Witness for C2: the upper-bound theorem applied to a concrete DO_BIND
on the example image. -/
theorem C2_witness :
    exImage.segments[exState.segment_index]? = some ⟨0x1000, 0x1000⟩ ∧
    exState.seg_end_address = 0x1000 + 0x1000 ∧
    (∃ L, (outBinary (n_opcode_do_bind exState exImage 0 [])).stores =
        exImage.stores ++ L ∧ ∀ ev ∈ L, ev.lva < 0x1000 + 0x1000) :=
  ⟨rfl, rfl,
    C2_do_bind_stores_upper_bound exState exImage 0 [] ⟨0x1000, 0x1000⟩ rfl
      rfl n_opcode_do_bind (Or.inl rfl)⟩

/-- C4 (amended): at a normal-mode DO_BIND, if `address ≥ seg_end_address`
the invalid-binary error is raised with the image untouched (the fixup
handler is not invoked, so nothing is stored and no cross-reference is
appended); otherwise any failure is exactly a fixup-handler failure, and
on success the handler's result is taken and the address is advanced by
`pointer_size` through the overflow-adjusted addition — which equals
`(address + pointer_size) mod 2^64` whenever the raw sum differs from
exactly `2^64` and stays below `2^65` — while every other register is
unchanged.  The original claim's unconditional `mod 2^64` fails at the
boundary sum `2^64`; see `C4_counterexample`. -/
theorem C4_do_bind_spec :
    ∀ (s : BindingState) (b : Binary) (i : Nat) (blob : List Nat),
      (s.seg_end_address ≤ s.address →
        n_opcode_do_bind s b i blob = .error (.invalidBinary, b)) ∧
      (s.address < s.seg_end_address →
        ∀ s' b', n_opcode_do_bind s b i blob = .ok (s', b') →
          default_binding_handler s b = .ok b' ∧
          s'.address = (if s.address + s.sizeof_intptr_t > s.wraparound
            then s.address + s.sizeof_intptr_t - s.wraparound
            else s.address + s.sizeof_intptr_t) ∧
          (s.wraparound = 2 ^ 64 → s.address + s.sizeof_intptr_t ≠ 2 ^ 64 →
            s.address + s.sizeof_intptr_t < 2 ^ 65 →
            s'.address = (s.address + s.sizeof_intptr_t) % 2 ^ 64) ∧
          s'.index = s.index ∧ s'.done = s.done ∧ s'.lib_ord = s.lib_ord ∧
          s'.sym_name = s.sym_name ∧ s'.sym_flags = s.sym_flags ∧
          s'.binding_type = s.binding_type ∧ s'.addend = s.addend ∧
          s'.segment_index = s.segment_index ∧
          s'.seg_end_address = s.seg_end_address) ∧
      (s.address < s.seg_end_address →
        ∀ e b', n_opcode_do_bind s b i blob = .error (e, b') →
          default_binding_handler s b = .error (e, b')) := by
  intro s b i blob
  refine ⟨?_, ?_, ?_⟩
  · intro hge
    unfold n_opcode_do_bind
    rw [if_pos hge]
  · intro hlt s' b' h
    unfold n_opcode_do_bind at h
    rw [if_neg (by omega)] at h
    split at h
    · cases h
    case _ b2 hdbh =>
      injection h with h
      injection h with h1 h2
      rw [h2] at hdbh
      refine ⟨hdbh, by rw [← h1, add_address_ov_eq], ?_, by rw [← h1, add_address_ov_eq],
        by rw [← h1, add_address_ov_eq], by rw [← h1, add_address_ov_eq],
        by rw [← h1, add_address_ov_eq], by rw [← h1, add_address_ov_eq],
        by rw [← h1, add_address_ov_eq], by rw [← h1, add_address_ov_eq],
        by rw [← h1, add_address_ov_eq], by rw [← h1, add_address_ov_eq]⟩
      intro hw hne hl
      rw [← h1]
      exact add_address_ov_mod s s.address s.sizeof_intptr_t hw hne hl
  · intro hlt e b' h
    unfold n_opcode_do_bind at h
    rw [if_neg (by omega)] at h
    split at h
    case _ e1 hdbh =>
      injection h with h
      rw [h] at hdbh
      exact hdbh
    · cases h

/-- The boundary state for the C4 counterexample: one pointer-sized slot
below the wraparound, still within the segment bound. -/
def cexState4 : BindingState :=
  { initBindingState true with
    address := 2 ^ 64 - 8, seg_end_address := 2 ^ 64, binding_type := 1 }

/-- C4 counterexample: a DO_BIND at address `2^64 - 8` (reachable with a
segment ending at `2^64`) passes the bounds check and binds, but the
post-bind increment leaves the address at `2^64`, not at
`(2^64 - 8 + 8) mod 2^64 = 0` as the claim states. -/
theorem C4_counterexample :
    stateAddrOf (n_opcode_do_bind cexState4 exImage 0 []) = some (2 ^ 64) ∧
    (cexState4.address + cexState4.sizeof_intptr_t) % 2 ^ 64 = 0 ∧
    ((2 ^ 64 : Nat) == 0) = false :=
  ⟨rfl, by norm_num [cexState4, initBindingState], rfl⟩

/-- A state whose address violates the segment bound, for the C4
witness. -/
def witState4 : BindingState :=
  { initBindingState true with address := 5, seg_end_address := 3 }

/-- Witness for C4: the bounds-violation branch of the DO_BIND spec at a
concrete state, raising invalid-binary with the image untouched. -/
theorem C4_witness :
    witState4.seg_end_address ≤ witState4.address ∧
    n_opcode_do_bind witState4 exImage 0 [] = .error (.invalidBinary, exImage) :=
  ⟨by decide, (C4_do_bind_spec witState4 exImage 0 []).1 (by decide)⟩

/-- The per-symbol filter decides exactly the claim's predicate. -/
theorem symMatch_iff (s : BindingState) (t : MachOSymbol) :
    symMatch s t = true ↔
      t.name = s.sym_name ∧ t.library_ordinal = s.lib_ord ∧ t.is_stab = false := by
  simp [symMatch, and_assoc]

/-- C5: symbol lookup selects exactly the image symbols whose name and
library ordinal equal the state's and that are not stabs; more than one
match raises invalid-binary with the image untouched; no match appends a
`BindingSymbol` placeholder to the symbol collection and the ordered list
and proceeds with it (the returned index points at the placeholder); a
unique match is used as is; and the lookup phase never fails for a missing
symbol — its only failure is the multiple-match case. -/
theorem C5_symbol_lookup :
    ∀ (s : BindingState) (b : Binary),
      (∀ i, i ∈ symbolMatches s b ↔ ∃ t, b.symbols[i]? = some t ∧
        t.name = s.sym_name ∧ t.library_ordinal = s.lib_ord ∧ t.is_stab = false) ∧
      (1 < (symbolMatches s b).length →
        default_binding_handler s b = .error (.invalidBinary, b)) ∧
      (symbolMatches s b = [] →
        resolveSymbol s b = .ok ({ b with
            symbols := b.symbols ++ [BindingSymbol s.sym_name s.lib_ord],
            ordered_symbols := b.ordered_symbols ++ [b.symbols.length] },
          b.symbols.length) ∧
        ∀ b1 idx, resolveSymbol s b = .ok (b1, idx) →
          b1.symbols[idx]? = some (BindingSymbol s.sym_name s.lib_ord)) ∧
      (∀ i, symbolMatches s b = [i] → resolveSymbol s b = .ok (b, i)) ∧
      (∀ e, resolveSymbol s b = .error e → 1 < (symbolMatches s b).length) := by
  intro s b
  refine ⟨?_, ?_, ?_, ?_, ?_⟩
  · intro i
    constructor
    · intro hi
      unfold symbolMatches at hi
      have h1 := List.mem_filter.mp hi
      have h2 : i < b.symbols.length := List.mem_range.mp h1.1
      rcases hg : b.symbols[i]? with _ | t
      · rw [List.getElem?_eq_getElem h2] at hg
        cases hg
      · refine ⟨t, rfl, ?_⟩
        have h3 := h1.2
        rw [hg] at h3
        exact (symMatch_iff s t).mp (by simpa using h3)
    · rintro ⟨t, hg, hname, hord, hstab⟩
      obtain ⟨hlen, hgt⟩ := List.getElem?_eq_some_iff.mp hg
      unfold symbolMatches
      refine List.mem_filter.mpr ⟨List.mem_range.mpr hlen, ?_⟩
      rw [hg]
      simpa using (symMatch_iff s t).mpr ⟨hname, hord, hstab⟩
  · intro hlen
    rcases resolveSymbol_cases s b with ⟨i, hm, hres⟩ | ⟨hm, hres⟩ | ⟨_, hres⟩
    · rw [hm] at hlen
      simp at hlen
    · rw [hm] at hlen
      simp at hlen
    · simp only [default_binding_handler, hres]
  · intro hm
    rcases resolveSymbol_cases s b with ⟨i, hm', hres⟩ | ⟨hm', hres⟩ | ⟨hlen, hres⟩
    · rw [hm] at hm'
      cases hm'
    · refine ⟨hres, ?_⟩
      intro b1 idx hres'
      rw [hres] at hres'
      injection hres' with hres'
      injection hres' with hb1 hidx
      rw [← hb1, ← hidx]
      exact List.getElem?_concat_length b.symbols (BindingSymbol s.sym_name s.lib_ord)
    · rw [hm] at hlen
      simp at hlen
  · intro i hm
    rcases resolveSymbol_cases s b with ⟨j, hm', hres⟩ | ⟨hm', hres⟩ | ⟨hlen, hres⟩
    · rw [hm] at hm'
      injection hm' with hj htail
      rw [hj]
      exact hres
    · rw [hm] at hm'
      cases hm'
    · rw [hm] at hlen
      simp at hlen
  · intro e hres'
    rcases resolveSymbol_cases s b with ⟨i, hm, hres⟩ | ⟨hm, hres⟩ | ⟨hlen, hres⟩
    · rw [hres] at hres'
      cases hres'
    · rw [hres] at hres'
      cases hres'
    · exact hlen

/-- A resolved symbol used to build a duplicate-match image. -/
def dupSymbol : MachOSymbol where
  name := []
  library_ordinal := 0
  is_stab := false
  linked_addr := 0x2000
  bind_xrefs := []

/-- An image with two identical matching symbols, for the C5 witness. -/
def exImageDup : Binary :=
  { exImage with symbols := [dupSymbol, dupSymbol], ordered_symbols := [0, 1] }

/-- Witness for C5: on an image with two symbols matching the initial
state's empty name and ordinal 0, the fixup handler raises invalid-binary
with the image untouched. -/
theorem C5_witness :
    1 < (symbolMatches (initBindingState true) exImageDup).length ∧
    default_binding_handler (initBindingState true) exImageDup =
      .error (.invalidBinary, exImageDup) :=
  ⟨by decide, (C5_symbol_lookup (initBindingState true) exImageDup).2.1 (by decide)⟩

/-- The value computation of `default_binding_handler` (binding.py line
351): the addend is suppressed for unresolved imports. -/
def bindValue (s : BindingState) (sym : MachOSymbol) : Int :=
  if sym.linked_addr ≠ 0 then (sym.linked_addr : Int) + s.addend else 0

/-- C7: a successful type-1 (POINTER) fixup writes `bindValue` — the
symbol's `linked_addr` plus the addend, or exactly 0 for an unresolved
symbol — as an unsigned integer of `pointer_size` width in the image's
byte order at the translated address, and appends the untruncated
location to that symbol's `bind_xrefs`; the packed value is in unsigned
range. -/
theorem C7_pointer_fixup :
    ∀ (s : BindingState) (b b1 b' : Binary) (idx : Nat) (sym : MachOSymbol),
      s.binding_type = 1 →
      resolveSymbol s b = .ok (b1, idx) →
      b1.symbols[idx]? = some sym →
      default_binding_handler s b = .ok b' →
      (sym.linked_addr ≠ 0 → bindValue s sym = (sym.linked_addr : Int) + s.addend) ∧
      (sym.linked_addr = 0 → bindValue s sym = 0) ∧
      0 ≤ bindValue s sym ∧
      bindValue s sym < 2 ^ (8 * (if b1.is64 then 8 else 4)) ∧
      b'.stores = b1.stores ++ [⟨s.address, b1.lva_to_rva s.address,
        if b1.bigEndian then
          (leBytes (if b1.is64 then 8 else 4) (bindValue s sym).toNat).reverse
        else leBytes (if b1.is64 then 8 else 4) (bindValue s sym).toNat⟩] ∧
      b'.symbols[idx]? =
        some {sym with bind_xrefs := sym.bind_xrefs ++ [s.address]} := by
  intro s b b1 b' idx sym hbt hres hsym h
  simp only [default_binding_handler, hres, hsym] at h
  rw [if_pos hbt] at h
  have hbv : (if sym.linked_addr ≠ 0 then ((sym.linked_addr : Int)) + s.addend
      else 0) = bindValue s sym := rfl
  rw [hbv] at h
  rcases hpack : structPack b1.bigEndian (if b1.is64 = true then 8 else 4)
      (bindValue s sym) with e1 | data
  · simp only [hpack] at h
    cases h
  · simp only [hpack] at h
    injection h with h
    rw [structPack] at hpack
    by_cases hrange : (0 : Int) ≤ bindValue s sym ∧
        bindValue s sym < (2 : Int) ^ (8 * if b1.is64 = true then 8 else 4)
    case pos =>
      rw [if_pos hrange] at hpack
      injection hpack with hpack
      refine ⟨fun hne => by simp [bindValue, hne], fun hz => by simp [bindValue, hz],
        hrange.1, hrange.2, ?_, ?_⟩
      · rw [← h, appendXref_stores, store_stores, ← hpack]
      · rw [← h]
        have hss : (b1.store s.address data).symbols[idx]? = some sym := hsym
        have hlen2 : idx < (b1.store s.address data).symbols.length :=
          (List.getElem?_eq_some_iff.mp hss).1
        unfold Binary.appendXref
        simp only [hss]
        exact List.getElem?_set_self hlen2
    case neg =>
      rw [if_neg hrange] at hpack
      cases hpack

/-- The state for the C7 witness: a fresh 64-bit state with the pointer
binding type. -/
def witState7 : BindingState := { initBindingState true with binding_type := 1 }

/-- The image after the C7 witness lookup created a placeholder. -/
def witImage7a : Binary :=
  { exImage with symbols := [BindingSymbol [] 0], ordered_symbols := [0] }

/-- The image after the C7 witness fixup stored eight zero bytes at
address 0 and recorded the cross-reference on the placeholder. -/
def witImage7b : Binary :=
  { exImage with
    symbols := [{ BindingSymbol [] 0 with bind_xrefs := [0] }],
    ordered_symbols := [0],
    stores := [⟨0, 0, [0, 0, 0, 0, 0, 0, 0, 0]⟩] }

/-- Witness for C7: the pointer-fixup theorem applied to a concrete
placeholder bind on the example image. -/
theorem C7_witness :
    witState7.binding_type = 1 ∧
    resolveSymbol witState7 exImage = .ok (witImage7a, 0) ∧
    witImage7a.symbols[0]? = some (BindingSymbol [] 0) ∧
    default_binding_handler witState7 exImage = .ok witImage7b ∧
    witImage7b.symbols[0]? =
      some {BindingSymbol [] 0 with
        bind_xrefs := (BindingSymbol [] 0).bind_xrefs ++ [witState7.address]} :=
  ⟨rfl, rfl, rfl, rfl,
    (C7_pointer_fixup witState7 exImage witImage7a witImage7b 0
      (BindingSymbol [] 0) rfl rfl rfl rfl).2.2.2.2.2⟩

/-- C8 (amended): in lazy mode, SET_SEGMENT_AND_OFFSET_ULEB sets the
address to `segments[immediate].vaddr + offset` reduced by a single
conditional subtraction of the wraparound (which agrees with mod `2 ^ 64`
only away from the exact boundary and for sums below `2 ^ 65`), leaves
`seg_end_address` and every other register except `index` and `address`
unchanged; and a successful lazy DO_BIND invokes the fixup handler and
returns the state completely unchanged. -/
theorem C8_lazy_frame :
    (∀ (s : BindingState) (b : Binary) (i : Nat) (blob : List Nat) (seg : Segment)
       (s' : BindingState) (b' : Binary),
      b.segments[i]? = some seg →
      l_opcode_set_segment_and_offset_uleb s b i blob = .ok (s', b') →
      b' = b ∧
      s'.seg_end_address = s.seg_end_address ∧
      s'.index = s.index + (read_uleb blob s.index).2 ∧
      s'.address = (if seg.vaddr + (read_uleb blob s.index).1 > s.wraparound
        then seg.vaddr + (read_uleb blob s.index).1 - s.wraparound
        else seg.vaddr + (read_uleb blob s.index).1) ∧
      (s.wraparound = 2 ^ 64 → seg.vaddr + (read_uleb blob s.index).1 ≠ 2 ^ 64 →
        seg.vaddr + (read_uleb blob s.index).1 < 2 ^ 65 →
        s'.address = (seg.vaddr + (read_uleb blob s.index).1) % 2 ^ 64) ∧
      s'.done = s.done ∧ s'.lib_ord = s.lib_ord ∧ s'.sym_name = s.sym_name ∧
      s'.sym_flags = s.sym_flags ∧ s'.binding_type = s.binding_type ∧
      s'.addend = s.addend ∧ s'.segment_index = s.segment_index) ∧
    (∀ (s : BindingState) (b : Binary) (i : Nat) (blob : List Nat)
       (s' : BindingState) (b' : Binary),
      l_opcode_do_bind s b i blob = .ok (s', b') →
      s' = s ∧ default_binding_handler s b = .ok b') := by
  refine ⟨?_, ?_⟩
  · intro s b i blob seg s' b' hseg h
    simp only [l_opcode_set_segment_and_offset_uleb, hseg] at h
    injection h with h
    injection h with h1 h2
    refine ⟨h2.symm, by rw [← h1, add_address_ov_eq], by rw [← h1, add_address_ov_eq],
      by rw [← h1, add_address_ov_eq], ?_, by rw [← h1, add_address_ov_eq],
      by rw [← h1, add_address_ov_eq], by rw [← h1, add_address_ov_eq],
      by rw [← h1, add_address_ov_eq], by rw [← h1, add_address_ov_eq],
      by rw [← h1, add_address_ov_eq], by rw [← h1, add_address_ov_eq]⟩
    intro hw hne hl
    rw [← h1]
    exact add_address_ov_mod s seg.vaddr (read_uleb blob s.index).1 hw hne hl
  · intro s b i blob s' b' h
    unfold l_opcode_do_bind at h
    split at h
    · cases h
    case _ b2 hdbh =>
      injection h with h
      injection h with h1 h2
      exact ⟨h1.symm, by rw [h2] at hdbh; exact hdbh⟩

/-- An image whose only segment starts five bytes below the 64-bit
wraparound, for the C8 counterexample. -/
def exImage8 : Binary := { exImage with segments := [⟨2 ^ 64 - 5, 0x100⟩] }

/-- C8 counterexample: a lazy SET_SEGMENT_AND_OFFSET_ULEB with offset 5
into a segment based at `2 ^ 64 - 5` yields the address `2 ^ 64` itself,
not `(2 ^ 64 - 5 + 5) mod 2 ^ 64 = 0` as the claim states. -/
theorem C8_counterexample :
    stateAddrOf (l_opcode_set_segment_and_offset_uleb (initBindingState true)
      exImage8 0 [0x05]) = some (2 ^ 64) ∧
    (2 ^ 64 - 5 + 5) % 2 ^ 64 = 0 ∧
    ((2 ^ 64 : Nat) == (2 ^ 64 - 5 + 5) % 2 ^ 64) = false := by
  refine ⟨rfl, by norm_num, by norm_num⟩

/-- The lazy state after the C8 witness opcode. -/
def witState8 : BindingState :=
  { initBindingState true with address := 0x1005, index := 1 }

/-- Witness for C8: the lazy-frame theorem applied to a concrete
SET_SEGMENT_AND_OFFSET_ULEB (offset 5 into the example segment) and to a
concrete lazy DO_BIND. -/
theorem C8_witness :
    (exImage.segments[0]? = some ⟨0x1000, 0x1000⟩ ∧
      l_opcode_set_segment_and_offset_uleb (initBindingState true) exImage 0 [0x05]
        = .ok (witState8, exImage) ∧
      witState8.seg_end_address = (initBindingState true).seg_end_address ∧
      witState8.address = (0x1000 + 5) % 2 ^ 64) ∧
    (l_opcode_do_bind witState7 exImage 0 [] = .ok (witState7, witImage7b) ∧
      default_binding_handler witState7 exImage = .ok witImage7b) := by
  refine ⟨⟨rfl, rfl, ?_, ?_⟩, ⟨rfl, ?_⟩⟩
  · exact (C8_lazy_frame.1 (initBindingState true) exImage 0 [0x05] ⟨0x1000, 0x1000⟩
      witState8 exImage rfl rfl).2.1
  · exact (C8_lazy_frame.1 (initBindingState true) exImage 0 [0x05] ⟨0x1000, 0x1000⟩
      witState8 exImage rfl rfl).2.2.2.2.1 rfl (by decide) (by decide)
  · exact (C8_lazy_frame.2 witState7 exImage 0 [] witState7 witImage7b rfl).2

/-- C9: before each lazy record, every register other than `index` (and
the architecture constants `wraparound` and `sizeof_intptr_t`) is reset to
its initial value, with `binding_type` reset to the lazy default 1; hence
the record loop depends on the incoming state only through `index` and
those constants, so no symbol, ordinal, addend, or address value leaks
from one record into the next. -/
theorem C9_lazy_record_reset :
    (∀ s : BindingState, resetLazyState s =
      { initBindingState true with
        index := s.index,
        wraparound := s.wraparound,
        sizeof_intptr_t := s.sizeof_intptr_t,
        binding_type := 1 }) ∧
    (∀ (fuel : Nat) (blob : List Nat) (b : Binary) (s1 s2 : BindingState),
      s1.index = s2.index → s1.wraparound = s2.wraparound →
      s1.sizeof_intptr_t = s2.sizeof_intptr_t →
      lazyRecordLoop fuel blob b s1 = lazyRecordLoop fuel blob b s2) := by
  refine ⟨fun s => rfl, ?_⟩
  intro fuel blob b s1 s2 h1 h2 h3
  cases fuel with
  | zero => rfl
  | succ fuel =>
    have hreset : resetLazyState s1 = resetLazyState s2 := by
      unfold resetLazyState
      rw [BindingState.mk.injEq]
      exact ⟨h1, rfl, rfl, rfl, rfl, rfl, rfl, rfl, rfl, rfl, h2, h3⟩
    simp only [lazyRecordLoop]
    rw [h1, hreset]

/-- A lazy state carrying leftover symbol data from a previous record. -/
def witState9a : BindingState :=
  { initBindingState true with sym_name := [65], lib_ord := 7, addend := 5 }

/-- A lazy state carrying a leftover address from a previous record. -/
def witState9b : BindingState :=
  { initBindingState true with address := 0x40, segment_index := 2 }

/-- Witness for C9: two states that differ in every leak-prone register
but share the cursor drive the record loop to the same result on a
one-record lazy blob. -/
theorem C9_witness :
    witState9a.index = witState9b.index ∧
    witState9a.wraparound = witState9b.wraparound ∧
    witState9a.sizeof_intptr_t = witState9b.sizeof_intptr_t ∧
    lazyRecordLoop 2 [0x90] exImage witState9a =
      lazyRecordLoop 2 [0x90] exImage witState9b :=
  ⟨rfl, rfl, rfl,
    C9_lazy_record_reset.2 2 [0x90] exImage witState9a witState9b rfl rfl rfl⟩

/-- The example image with a single zero-length segment at address 0. -/
def exImageZero : Binary := { exImage with segments := [⟨0, 0⟩] }

/-- The example image after a normal DO_BIND created a placeholder symbol
and then failed on the normal default binding type 0. -/
def exImage10 : Binary :=
  { exImage with symbols := [BindingSymbol [] 0], ordered_symbols := [0] }

/-- C10: `do_normal_bind` with a non-`None` blob (even an empty one) reads
segment 0 first — no segment means an `IndexError` — and otherwise seeds
`seg_end_address` to `segments[0].vaddr + segments[0].memsize`; the
re-derivation in `_do_bind_generic` from `segments[segment_index]` hits
the same segment 0, so the run reduces to the dispatcher seeded with
segment 0's end.  A DO_BIND before any SET_SEGMENT_AND_OFFSET_ULEB
bounds-checks the initial address 0 against that end: with a zero-length
segment 0 the check fires, while with a non-trivial segment 0 the same
blob reaches the fixup handler. -/
theorem C10_normal_seed :
    (∀ (b : Binary) (blob : List Nat), b.segments = [] →
      do_normal_bind b (some blob) = .error (.indexError, b)) ∧
    (∀ (b : Binary) (blob : List Nat) (seg : Segment) (rest : List Segment),
      b.segments = seg :: rest →
      do_normal_bind b (some blob) =
        match dispatchLoop (blob.length + 1) blob normalOpcodeTable
          { initBindingState b.is64 with
            seg_end_address := seg.vaddr + seg.memsize } b with
        | .error e => .error e
        | .ok (_, b1) => .ok b1) ∧
    do_normal_bind exImageZero (some [0x90]) = .error (.invalidBinary, exImageZero) ∧
    do_normal_bind exImage (some [0x90]) = .error (.invalidBinary, exImage10) := by
  refine ⟨?_, ?_, rfl, rfl⟩
  · intro b blob h
    unfold do_normal_bind
    rw [h]
    rfl
  · intro b blob seg rest h
    unfold do_normal_bind do_bind_generic
    rw [h]
    simp only [initBindingState, List.getElem?_cons_zero]

/-- The example image stripped of its segments. -/
def exImageNoSeg : Binary := { exImage with segments := [] }

/-- Witness for C10: the seeding theorem applied to the segmentless image
with an empty blob and to the example image with a single DO_BIND. -/
theorem C10_witness :
    exImageNoSeg.segments = [] ∧
    do_normal_bind exImageNoSeg (some []) = .error (.indexError, exImageNoSeg) ∧
    do_normal_bind exImage (some [0x90]) =
      (match dispatchLoop 2 [0x90] normalOpcodeTable
        { initBindingState exImage.is64 with
          seg_end_address := 0x1000 + 0x1000 } exImage with
      | .error e => .error e
      | .ok (_, b1) => .ok b1) :=
  ⟨rfl, C10_normal_seed.1 exImageNoSeg [] rfl,
   C10_normal_seed.2.1 exImage [0x90] ⟨0x1000, 0x1000⟩ [] rfl⟩
